import Mathlib

/-!
Verification development for the worker-side SDK core: the typed error /
failure-converter subsystem and the workflow cooperative cancellation
contexts.

The cancellation-context code is embedded from the repository source
(internal context file: emptyCtx, cancelCtx, valueCtx, WithCancel,
NewDisconnectedContext, propagateCancel, parentCancelCtx, removeChild,
cancelCtx.cancel).  The failure-converter subsystem is present in the
repository only through its tests, so its definitions are modelled from
the specification (and pinned by the expected values of the tests).
-/

set_option maxRecDepth 4000

/- ===================== Payloads and the data converter ===================== -/

/-- Modelled from the spec: the wire Payload data bytes. The payload and codec
pipeline source is missing from src; the byte string produced by the default
json/plain converter is abstracted to the structured value it encodes. -/
inductive PData where
  | pstr (s : String)
  | pint (n : Int)
  | pnull
deriving Repr, DecidableEq

/-- Modelled from the spec: a wire Payload, metadata (with the mandatory
"encoding" key) plus data. -/
structure Payload where
  metadata : List (String × String)
  data : PData
deriving Repr, DecidableEq

/-- Modelled from the spec: a user value handed to the data converter
(string, int or Go nil). -/
inductive GoVal where
  | str (s : String)
  | int (n : Int)
  | nilV
deriving Repr, DecidableEq

/-- Modelled from the spec: the default composite converter ToPayload
(nil maps to binary/null, everything else here to json/plain). -/
def ToPayload : GoVal → Payload
  | .str s => ⟨[("encoding", "json/plain")], .pstr s⟩
  | .int n => ⟨[("encoding", "json/plain")], .pint n⟩
  | .nilV => ⟨[("encoding", "binary/null")], .pnull⟩

/-- Modelled from the spec: FromPayload decoding into a string target. -/
def FromPayloadString : Payload → Option String
  | ⟨_, .pstr s⟩ => some s
  | _ => none

/- ===================== Wire failures ===================== -/

/-- Modelled from the spec: enum TimeoutType. -/
inductive TimeoutType where
  | scheduleToStart
  | scheduleToClose
  | startToClose
  | heartbeat
deriving Repr, DecidableEq

/-- Modelled from the spec: the application error category enum. -/
inductive ErrCategory where
  | unspecified
  | benign
deriving Repr, DecidableEq

/-- Modelled from the spec: enum RetryState (only the values the claims use). -/
inductive RetryState where
  | unspecified
  | nonRetryableFailure
  | timeoutState
deriving Repr, DecidableEq

/-- Modelled from the spec: the nexus handler error retry behavior enum. -/
inductive RetryBehavior where
  | unspecified
  | retryable
  | nonRetryable
deriving Repr, DecidableEq

/-- Modelled from the spec: the one-of info variants of the wire Failure
message (error.go is missing from src). -/
inductive FailureInfo where
  | application (typ : String) (nonRetryable : Bool) (details : List Payload)
      (category : ErrCategory)
  | canceledInfo (details : List Payload)
  | timeoutInfo (tt : TimeoutType) (lastHeartbeatDetails : List Payload)
  | terminatedInfo
  | serverInfo (nonRetryable : Bool)
  | activityInfo (scheduledEventId startedEventId : Int) (identity : String)
      (activityType activityId : String) (retryState : RetryState)
  | childWorkflowInfo (namespaceN workflowId runId workflowType : String)
      (initiatedEventId startedEventId : Int) (retryState : RetryState)
  | nexusHandlerInfo (typ : String) (retryBehavior : RetryBehavior)
deriving Repr, DecidableEq

/-- Modelled from the spec: the recursive wire Failure message.  nilF stands
for a nil failure pointer (absent cause).  The EncodeCommonAttributes payload
is abstracted to the pair of strings (message, stack trace) it encodes. -/
inductive Failure where
  | nilF
  | mk (message stackTrace source : String)
      (encodedAttributes : Option (String × String))
      (info : FailureInfo) (cause : Failure)
deriving Repr, DecidableEq

/- ===================== The error taxonomy ===================== -/

/-- Modelled from the spec: the closed error taxonomy (error.go is missing
from src).  noErr stands for a nil Go error; cause fields are errors
(possibly noErr); orig fields are the original_failure sidecar (Failure.nilF
when absent).  unknown models a generic Go error outside the taxonomy with
its Error() string and the type name getErrType reports. -/
inductive TErr where
  | noErr
  | application (msg typ : String) (nonRetryable : Bool) (details : List Payload)
      (category : ErrCategory) (cause : TErr) (orig : Failure)
  | canceled (details : List Payload) (orig : Failure)
  | timeout (msg : String) (tt : TimeoutType) (lastHeartbeatDetails : List Payload)
      (cause : TErr) (orig : Failure)
  | terminated (orig : Failure)
  | panicE (msg stackTrace : String) (workflowPanic : Bool) (orig : Failure)
  | server (msg : String) (nonRetryable : Bool) (cause : TErr) (orig : Failure)
  | activity (scheduledEventId startedEventId : Int) (identity : String)
      (activityType activityId : String) (retryState : RetryState)
      (cause : TErr) (orig : Failure)
  | childWorkflow (namespaceN workflowId runId workflowType : String)
      (initiatedEventId startedEventId : Int) (retryState : RetryState)
      (cause : TErr) (orig : Failure)
  | nexusHandler (typ : String) (retryBehavior : RetryBehavior) (cause : TErr)
  | unknown (msg typ : String)
deriving Repr, DecidableEq

/-- Renders a Bool the way Go fmt %v does. -/
def boolStr : Bool → String
  | true => "true"
  | false => "false"

/-- Modelled from the spec: the string form of enum TimeoutType used by
TimeoutError.Error(). -/
def timeoutTypeStr : TimeoutType → String
  | .scheduleToStart => "ScheduleToStart"
  | .scheduleToClose => "ScheduleToClose"
  | .startToClose => "StartToClose"
  | .heartbeat => "Heartbeat"

/-- Modelled from the spec: the Error() string of each taxonomy member.
The ApplicationError form follows the repository tests: the
"(type: ..., retryable: ...)" segment is emitted only when the type is
non-empty (Test_ApplicationError expects the bare message for an error
with empty type).  Formats the spec leaves open (activity, child workflow)
are fixed to a deterministic field rendering. -/
def errorString : TErr → String
  | .noErr => ""
  | .application msg typ nr _ _ cause _ =>
      let base := if typ = "" then msg
        else msg ++ " (type: " ++ typ ++ ", retryable: " ++ boolStr (!nr) ++ ")"
      (match cause with
        | .noErr => base
        | c => base ++ ": " ++ errorString c)
  | .canceled _ _ => "canceled"
  | .timeout msg tt _ cause _ =>
      let base := msg ++ " (type: " ++ timeoutTypeStr tt ++ ")"
      (match cause with
        | .noErr => base
        | c => base ++ ": " ++ errorString c)
  | .terminated _ => "terminated"
  | .panicE msg _ _ _ => msg
  | .server msg _ cause _ =>
      (match cause with
        | .noErr => msg
        | c => msg ++ ": " ++ errorString c)
  | .activity _ _ _ at_ _ _ cause _ =>
      let base := "activity error (type: " ++ at_ ++ ")"
      (match cause with
        | .noErr => base
        | c => base ++ ": " ++ errorString c)
  | .childWorkflow _ _ _ wt _ _ _ cause _ =>
      let base := "child workflow execution error (type: " ++ wt ++ ")"
      (match cause with
        | .noErr => base
        | c => base ++ ": " ++ errorString c)
  | .nexusHandler typ _ cause =>
      let base := "handler error (" ++ typ ++ ")"
      (match cause with
        | .noErr => base
        | c => base ++ ": " ++ errorString c)
  | .unknown msg _ => msg

/-- Modelled from the spec: the message the failure converter stores in the
wire Failure (the messenger value of typed errors; Error() for the rest). -/
def messageOf : TErr → String
  | .noErr => ""
  | .application msg _ _ _ _ _ _ => msg
  | .canceled _ _ => "canceled"
  | .timeout msg _ _ _ _ => msg
  | .terminated _ => "terminated"
  | .panicE msg _ _ _ => msg
  | .server msg _ _ _ => msg
  | .activity _ _ _ _ _ _ _ _ => "activity error"
  | .childWorkflow _ _ _ _ _ _ _ _ _ => "child workflow execution error"
  | e@(.nexusHandler _ _ _) => errorString e
  | .unknown msg _ => msg

/-- Modelled from the spec: the stack trace the converter stores in the wire
Failure (only panic errors carry one). -/
def stackOf : TErr → String
  | .panicE _ st _ _ => st
  | _ => ""

/-- The cause field of a taxonomy error (noErr when the kind has none). -/
def causeOf : TErr → TErr
  | .application _ _ _ _ _ cause _ => cause
  | .timeout _ _ _ cause _ => cause
  | .server _ _ cause _ => cause
  | .activity _ _ _ _ _ _ cause _ => cause
  | .childWorkflow _ _ _ _ _ _ _ cause _ => cause
  | .nexusHandler _ _ cause => cause
  | _ => .noErr

/-- The original_failure sidecar of an error (Failure.nilF when absent). -/
def origOf : TErr → Failure
  | .application _ _ _ _ _ _ orig => orig
  | .canceled _ orig => orig
  | .timeout _ _ _ _ orig => orig
  | .terminated orig => orig
  | .panicE _ _ _ orig => orig
  | .server _ _ _ orig => orig
  | .activity _ _ _ _ _ _ _ orig => orig
  | .childWorkflow _ _ _ _ _ _ _ _ orig => orig
  | _ => .nilF

/-- Modelled from the spec: the wire info variant each taxonomy member maps
to (panic errors map to ApplicationFailureInfo with the reserved type
"PanicError", non-retryable exactly for workflow-originated panics). -/
def infoOf : TErr → FailureInfo
  | .noErr => .terminatedInfo
  | .application _ typ nr det cat _ _ => .application typ nr det cat
  | .canceled det _ => .canceledInfo det
  | .timeout _ tt lhd _ _ => .timeoutInfo tt lhd
  | .terminated _ => .terminatedInfo
  | .panicE _ _ wf _ => .application "PanicError" wf [] .unspecified
  | .server _ nr _ _ => .serverInfo nr
  | .activity sid stid idn at_ aid rs _ _ => .activityInfo sid stid idn at_ aid rs
  | .childWorkflow ns wid rid wt init started rs _ _ =>
      .childWorkflowInfo ns wid rid wt init started rs
  | .nexusHandler typ rb _ => .nexusHandlerInfo typ rb
  | .unknown _ typ => .application typ false [] .unspecified

/- ===================== The failure converter ===================== -/

/-- Modelled from the spec: the default failure converter with its
EncodeCommonAttributes option (error.go is missing from src). -/
structure DefaultFailureConverter where
  encodeCommonAttributes : Bool
deriving Repr, DecidableEq

/-- Modelled from the spec: the process-wide default failure converter. -/
def GetDefaultFailureConverter : DefaultFailureConverter := ⟨false⟩

/-- When the error carries an original_failure sidecar, re-emit it unchanged;
otherwise use the freshly computed failure. -/
def withOrig : Failure → Failure → Failure
  | .nilF, f => f
  | o@(.mk _ _ _ _ _ _), _ => o

/-- Modelled from the spec: assembling one level of the outgoing Failure.
Under EncodeCommonAttributes the message and stack trace are replaced by
the literal "Encoded failure" and the empty string, the true values being
stored in the encoded-attributes payload. -/
def mkFailure (enc : Bool) (msg stack : String) (info : FailureInfo)
    (cause : Failure) : Failure :=
  if enc then .mk "Encoded failure" "" "GoSDK" (some (msg, stack)) info cause
  else .mk msg stack "GoSDK" none info cause

/-- Modelled from the spec: ErrorToFailure.  An error holding an
original_failure sidecar re-emits it unchanged; otherwise the failure is
assembled from the typed fields with the cause converted recursively, and
common attributes are encoded when the converter option is set. -/
def ErrorToFailure (fc : DefaultFailureConverter) : TErr → Failure
  | .noErr => .nilF
  | e@(.application _ _ _ _ _ cause orig) =>
      withOrig orig (mkFailure fc.encodeCommonAttributes (messageOf e) (stackOf e)
        (infoOf e) (ErrorToFailure fc cause))
  | e@(.canceled _ orig) =>
      withOrig orig (mkFailure fc.encodeCommonAttributes (messageOf e) (stackOf e)
        (infoOf e) .nilF)
  | e@(.timeout _ _ _ cause orig) =>
      withOrig orig (mkFailure fc.encodeCommonAttributes (messageOf e) (stackOf e)
        (infoOf e) (ErrorToFailure fc cause))
  | e@(.terminated orig) =>
      withOrig orig (mkFailure fc.encodeCommonAttributes (messageOf e) (stackOf e)
        (infoOf e) .nilF)
  | e@(.panicE _ _ _ orig) =>
      withOrig orig (mkFailure fc.encodeCommonAttributes (messageOf e) (stackOf e)
        (infoOf e) .nilF)
  | e@(.server _ _ cause orig) =>
      withOrig orig (mkFailure fc.encodeCommonAttributes (messageOf e) (stackOf e)
        (infoOf e) (ErrorToFailure fc cause))
  | e@(.activity _ _ _ _ _ _ cause orig) =>
      withOrig orig (mkFailure fc.encodeCommonAttributes (messageOf e) (stackOf e)
        (infoOf e) (ErrorToFailure fc cause))
  | e@(.childWorkflow _ _ _ _ _ _ _ cause orig) =>
      withOrig orig (mkFailure fc.encodeCommonAttributes (messageOf e) (stackOf e)
        (infoOf e) (ErrorToFailure fc cause))
  | e@(.nexusHandler _ _ cause) =>
      mkFailure fc.encodeCommonAttributes (messageOf e) (stackOf e)
        (infoOf e) (ErrorToFailure fc cause)
  | e@(.unknown _ _) =>
      mkFailure fc.encodeCommonAttributes (messageOf e) (stackOf e)
        (infoOf e) .nilF

/-- Modelled from the spec: FailureToError.  The failure's message and stack
trace are first restored from the encoded-attributes payload when present;
the typed error is rebuilt from the info variant (an application info with
the reserved type "PanicError" yields a PanicError, as the repository tests
pin down), the cause is converted recursively, and the original wire failure
(pre-decoding) is stored as the original_failure sidecar on every kind that
can hold one (the nexus handler error is an external type and holds none). -/
def FailureToError : Failure → TErr
  | .nilF => .noErr
  | f@(.mk m s _ encA info cause) =>
      let dm := match encA with | some p => p.1 | none => m
      let ds := match encA with | some p => p.2 | none => s
      match info with
      | .application typ nr det cat =>
          if typ = "PanicError" then .panicE dm ds false f
          else .application dm typ nr det cat (FailureToError cause) f
      | .canceledInfo det => .canceled det f
      | .timeoutInfo tt lhd => .timeout dm tt lhd (FailureToError cause) f
      | .terminatedInfo => .terminated f
      | .serverInfo nr => .server dm nr (FailureToError cause) f
      | .activityInfo sid stid idn at_ aid rs =>
          .activity sid stid idn at_ aid rs (FailureToError cause) f
      | .childWorkflowInfo ns wid rid wt init started rs =>
          .childWorkflow ns wid rid wt init started rs (FailureToError cause) f
      | .nexusHandlerInfo typ rb => .nexusHandler typ rb (FailureToError cause)

/- ===================== Error constructors and accessors ===================== -/

/-- Modelled from the spec: NewApplicationError (default category
Unspecified, no original failure, details encoded by the data converter). -/
def NewApplicationError (msg typ : String) (nonRetryable : Bool) (cause : TErr)
    (details : List GoVal) : TErr :=
  .application msg typ nonRetryable (details.map ToPayload) .unspecified cause .nilF

/-- Modelled from the spec: NewTimeoutError (no heartbeat details). -/
def NewTimeoutError (msg : String) (tt : TimeoutType) (cause : TErr) : TErr :=
  .timeout msg tt [] cause .nilF

/-- Modelled from the spec: NewHeartbeatTimeoutError carrying encoded last
heartbeat details. -/
def NewHeartbeatTimeoutError (details : List GoVal) : TErr :=
  .timeout "heartbeat timeout" .heartbeat (details.map ToPayload) .noErr .nilF

/-- Modelled from the spec: NewCanceledError with encoded details. -/
def NewCanceledError (details : List GoVal) : TErr :=
  .canceled (details.map ToPayload) .nilF

/-- Modelled from the spec: the decode status errors of detail accessors;
ErrNoData is returned when no data is available. -/
inductive DErr where
  | ErrNoData
  | decodeFailed
deriving Repr, DecidableEq

/-- Modelled from the spec: ApplicationError.HasDetails (true whenever the
error holds a non-empty details collection, even one holding a single nil). -/
def HasDetails : TErr → Bool
  | .application _ _ _ det _ _ _ => !det.isEmpty
  | _ => false

/-- Modelled from the spec: ApplicationError.Details invoked with no output
arguments: ErrNoData when the error has no details, success otherwise. -/
def Details0 : TErr → Except DErr Unit
  | .application _ _ _ det _ _ _ =>
      if det.isEmpty then .error .ErrNoData else .ok ()
  | _ => .error .ErrNoData

/-- Modelled from the spec: TimeoutError.HasLastHeartbeatDetails. -/
def HasLastHeartbeatDetails : TErr → Bool
  | .timeout _ _ lhd _ _ => !lhd.isEmpty
  | _ => false

/-- Modelled from the spec: TimeoutError.LastHeartbeatDetails decoding into
one string target; ErrNoData when the error carries no details. -/
def LastHeartbeatDetails : TErr → Except DErr String
  | .timeout _ _ (p :: _) _ _ =>
      (match FromPayloadString p with
        | some s => .ok s
        | none => .error .decodeFailed)
  | _ => .error .ErrNoData

/-- Modelled from the spec: IsRetryable.  Terminated, canceled and
workflow-panic errors are never retryable; application errors are retryable
iff non_retryable is false and their type is not listed; timeouts are
retryable only for StartToClose and Heartbeat; server errors follow the
inverse of non_retryable; other errors fall back to the listed-type rule on
their reported type name. -/
def IsRetryable : TErr → List String → Bool
  | .noErr, _ => false
  | .terminated _, _ => false
  | .canceled _ _, _ => false
  | .panicE _ _ wf _, l => if wf then false else !l.contains "PanicError"
  | .application _ typ nr _ _ _ _, l => !nr && !l.contains typ
  | .timeout _ tt _ _ _, _ => tt == .startToClose || tt == .heartbeat
  | .server _ nr _ _, _ => !nr
  | .activity _ _ _ _ _ _ _ _, l => !l.contains "ActivityError"
  | .childWorkflow _ _ _ _ _ _ _ _ _, l => !l.contains "ChildWorkflowExecutionError"
  | .nexusHandler _ rb _, _ => rb == .retryable
  | .unknown _ typ, l => !l.contains typ

/- ===================== Round-trip observations ===================== -/

/-- The observables the round-trip law speaks about: Error() string, type,
non_retryable, category, and recursively the cause. -/
inductive Obs where
  | nilO
  | node (errStr : String) (typ : Option String) (nonRetryable : Option Bool)
      (category : Option ErrCategory) (cause : Obs)
deriving Repr, DecidableEq

/-- The observation of a taxonomy error: its Error() string, its type field
(application, nexus handler and generic errors), its non_retryable field
(application, server; for panics the workflow-origin bit the taxonomy calls
non_retryable), its category (application only) and, recursively, its cause. -/
def errObs : TErr → Obs
  | .noErr => .nilO
  | e@(.application _ typ nr _ cat cause _) =>
      .node (errorString e) (some typ) (some nr) (some cat) (errObs cause)
  | e@(.canceled _ _) => .node (errorString e) none none none .nilO
  | e@(.timeout _ _ _ cause _) => .node (errorString e) none none none (errObs cause)
  | e@(.terminated _) => .node (errorString e) none none none .nilO
  | e@(.panicE _ _ wf _) => .node (errorString e) none (some wf) none .nilO
  | e@(.server _ nr cause _) => .node (errorString e) none (some nr) none (errObs cause)
  | e@(.activity _ _ _ _ _ _ cause _) =>
      .node (errorString e) none none none (errObs cause)
  | e@(.childWorkflow _ _ _ _ _ _ _ cause _) =>
      .node (errorString e) none none none (errObs cause)
  | e@(.nexusHandler typ _ cause) =>
      .node (errorString e) (some typ) none none (errObs cause)
  | e@(.unknown _ typ) => .node (errorString e) (some typ) none none .nilO

/-- The chain of (message, stack trace) pairs down the cause chain, as stored
on the wire by the failure converter. -/
def msgStackObs : TErr → List (String × String)
  | .noErr => []
  | e@(.application _ _ _ _ _ cause _) => (messageOf e, stackOf e) :: msgStackObs cause
  | e@(.canceled _ _) => [(messageOf e, stackOf e)]
  | e@(.timeout _ _ _ cause _) => (messageOf e, stackOf e) :: msgStackObs cause
  | e@(.terminated _) => [(messageOf e, stackOf e)]
  | e@(.panicE _ _ _ _) => [(messageOf e, stackOf e)]
  | e@(.server _ _ cause _) => (messageOf e, stackOf e) :: msgStackObs cause
  | e@(.activity _ _ _ _ _ _ cause _) => (messageOf e, stackOf e) :: msgStackObs cause
  | e@(.childWorkflow _ _ _ _ _ _ _ cause _) =>
      (messageOf e, stackOf e) :: msgStackObs cause
  | e@(.nexusHandler _ _ cause) => (messageOf e, stackOf e) :: msgStackObs cause
  | e@(.unknown _ _) => [(messageOf e, stackOf e)]

/-- Errors whose default round trip is lossless: members of the closed
taxonomy built by the constructors (no original_failure sidecar), excluding
application errors carrying the reserved type "PanicError" and
workflow-originated panics (both of which FailureToError maps to a plain
PanicError), and excluding generic errors outside the taxonomy. -/
def roundTripSafe : TErr → Bool
  | .noErr => true
  | .application _ typ _ _ _ cause orig =>
      typ != "PanicError" && orig == .nilF && roundTripSafe cause
  | .canceled _ orig => orig == .nilF
  | .timeout _ _ _ cause orig => orig == .nilF && roundTripSafe cause
  | .terminated orig => orig == .nilF
  | .panicE _ _ wf orig => !wf && orig == .nilF
  | .server _ _ cause orig => orig == .nilF && roundTripSafe cause
  | .activity _ _ _ _ _ _ cause orig => orig == .nilF && roundTripSafe cause
  | .childWorkflow _ _ _ _ _ _ _ cause orig => orig == .nilF && roundTripSafe cause
  | .nexusHandler _ _ cause => roundTripSafe cause
  | .unknown _ _ => false

/-- All levels of a failure have the encoded message, the empty stack trace
and an encoded-attributes payload. -/
def allEncoded : Failure → Bool
  | .nilF => true
  | .mk m s _ encA _ cause =>
      m == "Encoded failure" && s == "" && encA.isSome && allEncoded cause

/-- The encoded-attributes payload at the top level of a failure. -/
def encAttrsTop : Failure → Option (String × String)
  | .nilF => none
  | .mk _ _ _ encA _ _ => encA

/-- Whether a failure carries the nexus handler info variant (the only kind
whose decoded error is an external type without an original_failure slot). -/
def isNexusFailure : Failure → Bool
  | .mk _ _ _ _ (.nexusHandlerInfo _ _) _ => true
  | _ => false

/- ===================== Helper lemmas: observations ===================== -/

/-- The Error() string component of an observation. -/
def obsStr : Obs → String
  | .nilO => ""
  | .node s _ _ _ _ => s

theorem obsStr_errObs (e : TErr) : obsStr (errObs e) = errorString e := by
  cases e <;> rfl

theorem errObs_eq_nil (e : TErr) : errObs e = .nilO ↔ e = .noErr := by
  cases e <;> simp [errObs]

theorem errorString_of_obs {c c' : TErr} (h : errObs c = errObs c') :
    errorString c = errorString c' := by
  rw [← obsStr_errObs, ← obsStr_errObs, h]

/-- The cause-dependent tail of the Error() strings: the bare base for a nil
cause, otherwise the base followed by ": " and the cause's Error(). -/
def causeSuffixed (base : String) : TErr → String
  | .noErr => base
  | c => base ++ ": " ++ errorString c

theorem causeSuffixed_ne (base : String) {c : TErr} (h : c ≠ .noErr) :
    causeSuffixed base c = base ++ ": " ++ errorString c := by
  cases c <;> first | exact absurd rfl h | rfl

theorem causeSuffixed_of_obs (base : String) {c c' : TErr}
    (h : errObs c = errObs c') : causeSuffixed base c = causeSuffixed base c' := by
  by_cases hc : c = .noErr
  · have hc' : c' = .noErr := by
      rw [← errObs_eq_nil, ← h, errObs_eq_nil]; exact hc
    rw [hc, hc']
  · have hc' : c' ≠ .noErr := by
      intro hx
      exact hc (by rw [← errObs_eq_nil, h, errObs_eq_nil]; exact hx)
    rw [causeSuffixed_ne base hc, causeSuffixed_ne base hc',
      errorString_of_obs h]

/-- The formatted base of ApplicationError.Error(). -/
def appBase (msg typ : String) (nr : Bool) : String :=
  if typ = "" then msg
  else msg ++ " (type: " ++ typ ++ ", retryable: " ++ boolStr (!nr) ++ ")"

theorem errorString_application (msg typ : String) (nr : Bool) (det : List Payload)
    (cat : ErrCategory) (cause : TErr) (orig : Failure) :
    errorString (.application msg typ nr det cat cause orig) =
      causeSuffixed (appBase msg typ nr) cause := by
  cases cause <;> rfl

theorem errorString_timeout (msg : String) (tt : TimeoutType) (lhd : List Payload)
    (cause : TErr) (orig : Failure) :
    errorString (.timeout msg tt lhd cause orig) =
      causeSuffixed (msg ++ " (type: " ++ timeoutTypeStr tt ++ ")") cause := by
  cases cause <;> rfl

theorem errorString_server (msg : String) (nr : Bool) (cause : TErr) (orig : Failure) :
    errorString (.server msg nr cause orig) = causeSuffixed msg cause := by
  cases cause <;> rfl

theorem errorString_activity (sid stid : Int) (idn at_ aid : String)
    (rs : RetryState) (cause : TErr) (orig : Failure) :
    errorString (.activity sid stid idn at_ aid rs cause orig) =
      causeSuffixed ("activity error (type: " ++ at_ ++ ")") cause := by
  cases cause <;> rfl

theorem errorString_childWorkflow (ns wid rid wt : String) (init started : Int)
    (rs : RetryState) (cause : TErr) (orig : Failure) :
    errorString (.childWorkflow ns wid rid wt init started rs cause orig) =
      causeSuffixed ("child workflow execution error (type: " ++ wt ++ ")") cause := by
  cases cause <;> rfl

theorem errorString_nexusHandler (typ : String) (rb : RetryBehavior) (cause : TErr) :
    errorString (.nexusHandler typ rb cause) =
      causeSuffixed ("handler error (" ++ typ ++ ")") cause := by
  cases cause <;> rfl

/- ===================== Helper lemmas: converter unfolding ===================== -/

theorem withOrig_ne {o : Failure} (h : o ≠ .nilF) (f : Failure) :
    withOrig o f = o := by
  cases o
  · exact absurd rfl h
  · rfl

theorem mkFailure_ne_nilF (enc : Bool) (m s : String) (info : FailureInfo)
    (c : Failure) : mkFailure enc m s info c ≠ .nilF := by
  cases enc <;> simp [mkFailure]

theorem ErrorToFailure_application (fc : DefaultFailureConverter)
    (msg typ : String) (nr : Bool) (det : List Payload) (cat : ErrCategory)
    (cause : TErr) :
    ErrorToFailure fc (.application msg typ nr det cat cause .nilF) =
      mkFailure fc.encodeCommonAttributes msg "" (.application typ nr det cat)
        (ErrorToFailure fc cause) := rfl

theorem ErrorToFailure_canceled (fc : DefaultFailureConverter) (det : List Payload) :
    ErrorToFailure fc (.canceled det .nilF) =
      mkFailure fc.encodeCommonAttributes "canceled" "" (.canceledInfo det) .nilF := rfl

theorem ErrorToFailure_timeout (fc : DefaultFailureConverter) (msg : String)
    (tt : TimeoutType) (lhd : List Payload) (cause : TErr) :
    ErrorToFailure fc (.timeout msg tt lhd cause .nilF) =
      mkFailure fc.encodeCommonAttributes msg "" (.timeoutInfo tt lhd)
        (ErrorToFailure fc cause) := rfl

theorem ErrorToFailure_terminated (fc : DefaultFailureConverter) :
    ErrorToFailure fc (.terminated .nilF) =
      mkFailure fc.encodeCommonAttributes "terminated" "" .terminatedInfo .nilF := rfl

theorem ErrorToFailure_panicE (fc : DefaultFailureConverter) (msg st : String)
    (wf : Bool) :
    ErrorToFailure fc (.panicE msg st wf .nilF) =
      mkFailure fc.encodeCommonAttributes msg st
        (.application "PanicError" wf [] .unspecified) .nilF := rfl

theorem ErrorToFailure_server (fc : DefaultFailureConverter) (msg : String)
    (nr : Bool) (cause : TErr) :
    ErrorToFailure fc (.server msg nr cause .nilF) =
      mkFailure fc.encodeCommonAttributes msg "" (.serverInfo nr)
        (ErrorToFailure fc cause) := rfl

theorem ErrorToFailure_activity (fc : DefaultFailureConverter) (sid stid : Int)
    (idn at_ aid : String) (rs : RetryState) (cause : TErr) :
    ErrorToFailure fc (.activity sid stid idn at_ aid rs cause .nilF) =
      mkFailure fc.encodeCommonAttributes "activity error" ""
        (.activityInfo sid stid idn at_ aid rs) (ErrorToFailure fc cause) := rfl

theorem ErrorToFailure_childWorkflow (fc : DefaultFailureConverter)
    (ns wid rid wt : String) (init started : Int) (rs : RetryState) (cause : TErr) :
    ErrorToFailure fc (.childWorkflow ns wid rid wt init started rs cause .nilF) =
      mkFailure fc.encodeCommonAttributes "child workflow execution error" ""
        (.childWorkflowInfo ns wid rid wt init started rs)
        (ErrorToFailure fc cause) := rfl

theorem ErrorToFailure_nexusHandler (fc : DefaultFailureConverter) (typ : String)
    (rb : RetryBehavior) (cause : TErr) :
    ErrorToFailure fc (.nexusHandler typ rb cause) =
      mkFailure fc.encodeCommonAttributes
        (errorString (.nexusHandler typ rb cause)) ""
        (.nexusHandlerInfo typ rb) (ErrorToFailure fc cause) := rfl

theorem FailureToError_mk_application (enc : Bool) (m s : String) (typ : String)
    (nr : Bool) (det : List Payload) (cat : ErrCategory) (c : Failure)
    (h : typ ≠ "PanicError") :
    FailureToError (mkFailure enc m s (.application typ nr det cat) c) =
      .application m typ nr det cat (FailureToError c)
        (mkFailure enc m s (.application typ nr det cat) c) := by
  cases enc <;> simp [mkFailure, FailureToError, h]

theorem FailureToError_mk_panic (enc : Bool) (m s : String) (nr : Bool)
    (det : List Payload) (cat : ErrCategory) (c : Failure) :
    FailureToError (mkFailure enc m s (.application "PanicError" nr det cat) c) =
      .panicE m s false (mkFailure enc m s (.application "PanicError" nr det cat) c) := by
  cases enc <;> simp [mkFailure, FailureToError]

theorem FailureToError_mk_canceled (enc : Bool) (m s : String)
    (det : List Payload) (c : Failure) :
    FailureToError (mkFailure enc m s (.canceledInfo det) c) =
      .canceled det (mkFailure enc m s (.canceledInfo det) c) := by
  cases enc <;> simp [mkFailure, FailureToError]

theorem FailureToError_mk_timeout (enc : Bool) (m s : String) (tt : TimeoutType)
    (lhd : List Payload) (c : Failure) :
    FailureToError (mkFailure enc m s (.timeoutInfo tt lhd) c) =
      .timeout m tt lhd (FailureToError c) (mkFailure enc m s (.timeoutInfo tt lhd) c) := by
  cases enc <;> simp [mkFailure, FailureToError]

theorem FailureToError_mk_terminated (enc : Bool) (m s : String) (c : Failure) :
    FailureToError (mkFailure enc m s .terminatedInfo c) =
      .terminated (mkFailure enc m s .terminatedInfo c) := by
  cases enc <;> simp [mkFailure, FailureToError]

theorem FailureToError_mk_server (enc : Bool) (m s : String) (nr : Bool) (c : Failure) :
    FailureToError (mkFailure enc m s (.serverInfo nr) c) =
      .server m nr (FailureToError c) (mkFailure enc m s (.serverInfo nr) c) := by
  cases enc <;> simp [mkFailure, FailureToError]

theorem FailureToError_mk_activity (enc : Bool) (m s : String) (sid stid : Int)
    (idn at_ aid : String) (rs : RetryState) (c : Failure) :
    FailureToError (mkFailure enc m s (.activityInfo sid stid idn at_ aid rs) c) =
      .activity sid stid idn at_ aid rs (FailureToError c)
        (mkFailure enc m s (.activityInfo sid stid idn at_ aid rs) c) := by
  cases enc <;> simp [mkFailure, FailureToError]

theorem FailureToError_mk_childWorkflow (enc : Bool) (m s : String)
    (ns wid rid wt : String) (init started : Int) (rs : RetryState) (c : Failure) :
    FailureToError (mkFailure enc m s (.childWorkflowInfo ns wid rid wt init started rs) c) =
      .childWorkflow ns wid rid wt init started rs (FailureToError c)
        (mkFailure enc m s (.childWorkflowInfo ns wid rid wt init started rs) c) := by
  cases enc <;> simp [mkFailure, FailureToError]

theorem FailureToError_mk_nexusHandler (enc : Bool) (m s : String) (typ : String)
    (rb : RetryBehavior) (c : Failure) :
    FailureToError (mkFailure enc m s (.nexusHandlerInfo typ rb) c) =
      .nexusHandler typ rb (FailureToError c) := by
  cases enc <;> simp [mkFailure, FailureToError]

/- ===================== The round-trip law ===================== -/

theorem roundTrip_preserves (fc : DefaultFailureConverter) :
    ∀ e : TErr, roundTripSafe e = true →
      errObs (FailureToError (ErrorToFailure fc e)) = errObs e ∧
      msgStackObs (FailureToError (ErrorToFailure fc e)) = msgStackObs e := by
  intro e
  induction e with
  | noErr => intro _; exact ⟨rfl, rfl⟩
  | application msg typ nr det cat cause orig ih =>
      intro h
      simp only [roundTripSafe, Bool.and_eq_true, bne_iff_ne, beq_iff_eq, ne_eq] at h
      obtain ⟨⟨h1, h2⟩, h3⟩ := h
      subst h2
      obtain ⟨ihobs, ihms⟩ := ih h3
      rw [ErrorToFailure_application, FailureToError_mk_application _ _ _ _ _ _ _ _ h1]
      have hcs := causeSuffixed_of_obs (appBase msg typ nr) ihobs
      constructor
      · simp [errObs, errorString_application, hcs, ihobs]
      · simp [msgStackObs, messageOf, stackOf, ihms]
  | canceled det orig =>
      intro h
      simp only [roundTripSafe, beq_iff_eq] at h
      subst h
      rw [ErrorToFailure_canceled, FailureToError_mk_canceled]
      exact ⟨rfl, rfl⟩
  | timeout msg tt lhd cause orig ih =>
      intro h
      simp only [roundTripSafe, Bool.and_eq_true, beq_iff_eq] at h
      obtain ⟨h2, h3⟩ := h
      subst h2
      obtain ⟨ihobs, ihms⟩ := ih h3
      rw [ErrorToFailure_timeout, FailureToError_mk_timeout]
      have hcs := causeSuffixed_of_obs (msg ++ " (type: " ++ timeoutTypeStr tt ++ ")") ihobs
      constructor
      · simp [errObs, errorString_timeout, hcs, ihobs]
      · simp [msgStackObs, messageOf, stackOf, ihms]
  | terminated orig =>
      intro h
      simp only [roundTripSafe, beq_iff_eq] at h
      subst h
      rw [ErrorToFailure_terminated, FailureToError_mk_terminated]
      exact ⟨rfl, rfl⟩
  | panicE msg st wf orig =>
      intro h
      simp only [roundTripSafe, Bool.and_eq_true, Bool.not_eq_true', beq_iff_eq] at h
      obtain ⟨h1, h2⟩ := h
      subst h1; subst h2
      rw [ErrorToFailure_panicE, FailureToError_mk_panic]
      exact ⟨rfl, rfl⟩
  | server msg nr cause orig ih =>
      intro h
      simp only [roundTripSafe, Bool.and_eq_true, beq_iff_eq] at h
      obtain ⟨h2, h3⟩ := h
      subst h2
      obtain ⟨ihobs, ihms⟩ := ih h3
      rw [ErrorToFailure_server, FailureToError_mk_server]
      have hcs := causeSuffixed_of_obs msg ihobs
      constructor
      · simp [errObs, errorString_server, hcs, ihobs]
      · simp [msgStackObs, messageOf, stackOf, ihms]
  | activity sid stid idn at_ aid rs cause orig ih =>
      intro h
      simp only [roundTripSafe, Bool.and_eq_true, beq_iff_eq] at h
      obtain ⟨h2, h3⟩ := h
      subst h2
      obtain ⟨ihobs, ihms⟩ := ih h3
      rw [ErrorToFailure_activity, FailureToError_mk_activity]
      have hcs := causeSuffixed_of_obs ("activity error (type: " ++ at_ ++ ")") ihobs
      constructor
      · simp [errObs, errorString_activity, hcs, ihobs]
      · simp [msgStackObs, messageOf, stackOf, ihms]
  | childWorkflow ns wid rid wt init started rs cause orig ih =>
      intro h
      simp only [roundTripSafe, Bool.and_eq_true, beq_iff_eq] at h
      obtain ⟨h2, h3⟩ := h
      subst h2
      obtain ⟨ihobs, ihms⟩ := ih h3
      rw [ErrorToFailure_childWorkflow, FailureToError_mk_childWorkflow]
      have hcs := causeSuffixed_of_obs
        ("child workflow execution error (type: " ++ wt ++ ")") ihobs
      constructor
      · simp [errObs, errorString_childWorkflow, hcs, ihobs]
      · simp [msgStackObs, messageOf, stackOf, ihms]
  | nexusHandler typ rb cause ih =>
      intro h
      simp only [roundTripSafe] at h
      obtain ⟨ihobs, ihms⟩ := ih h
      rw [ErrorToFailure_nexusHandler, FailureToError_mk_nexusHandler]
      have hcs := causeSuffixed_of_obs ("handler error (" ++ typ ++ ")") ihobs
      constructor
      · simp [errObs, errorString_nexusHandler, hcs, ihobs]
      · simp [msgStackObs, messageOf, stackOf, errorString_nexusHandler, hcs, ihms]
  | unknown msg typ =>
      intro h
      simp [roundTripSafe] at h

/- ===================== Original-failure sidecar lemmas ===================== -/

theorem ErrorToFailure_of_orig (fc : DefaultFailureConverter) :
    ∀ e : TErr, origOf e ≠ .nilF → ErrorToFailure fc e = origOf e := by
  intro e h
  cases e with
  | noErr => exact absurd rfl h
  | application msg typ nr det cat cause orig =>
      cases orig with
      | nilF => exact absurd rfl h
      | mk m s src encA info c => rfl
  | canceled det orig =>
      cases orig with
      | nilF => exact absurd rfl h
      | mk m s src encA info c => rfl
  | timeout msg tt lhd cause orig =>
      cases orig with
      | nilF => exact absurd rfl h
      | mk m s src encA info c => rfl
  | terminated orig =>
      cases orig with
      | nilF => exact absurd rfl h
      | mk m s src encA info c => rfl
  | panicE msg st wf orig =>
      cases orig with
      | nilF => exact absurd rfl h
      | mk m s src encA info c => rfl
  | server msg nr cause orig =>
      cases orig with
      | nilF => exact absurd rfl h
      | mk m s src encA info c => rfl
  | activity sid stid idn at_ aid rs cause orig =>
      cases orig with
      | nilF => exact absurd rfl h
      | mk m s src encA info c => rfl
  | childWorkflow ns wid rid wt init started rs cause orig =>
      cases orig with
      | nilF => exact absurd rfl h
      | mk m s src encA info c => rfl
  | nexusHandler typ rb cause => exact absurd rfl h
  | unknown msg typ => exact absurd rfl h

theorem origOf_FailureToError :
    ∀ f : Failure, f ≠ .nilF → isNexusFailure f = false →
      origOf (FailureToError f) = f := by
  intro f h hn
  cases f with
  | nilF => exact absurd rfl h
  | mk m s src encA info cause =>
      cases info with
      | application typ nr det cat =>
          by_cases hp : typ = "PanicError"
          · subst hp; simp [FailureToError, origOf]
          · simp [FailureToError, origOf, hp]
      | canceledInfo det => simp [FailureToError, origOf]
      | timeoutInfo tt lhd => simp [FailureToError, origOf]
      | terminatedInfo => simp [FailureToError, origOf]
      | serverInfo nr => simp [FailureToError, origOf]
      | activityInfo sid stid idn at_ aid rs => simp [FailureToError, origOf]
      | childWorkflowInfo ns wid rid wt init started rs => simp [FailureToError, origOf]
      | nexusHandlerInfo typ rb => simp [isNexusFailure] at hn

/- ===================== Encode-mode lemmas ===================== -/

theorem allEncoded_ErrorToFailure :
    ∀ e : TErr, roundTripSafe e = true →
      allEncoded (ErrorToFailure ⟨true⟩ e) = true := by
  intro e
  induction e with
  | noErr => intro _; rfl
  | application msg typ nr det cat cause orig ih =>
      intro h
      simp only [roundTripSafe, Bool.and_eq_true, bne_iff_ne, beq_iff_eq, ne_eq] at h
      obtain ⟨⟨h1, h2⟩, h3⟩ := h
      subst h2
      rw [ErrorToFailure_application]
      simp [mkFailure, allEncoded, ih h3]
  | canceled det orig =>
      intro h
      simp only [roundTripSafe, beq_iff_eq] at h
      subst h
      rw [ErrorToFailure_canceled]
      simp [mkFailure, allEncoded]
  | timeout msg tt lhd cause orig ih =>
      intro h
      simp only [roundTripSafe, Bool.and_eq_true, beq_iff_eq] at h
      obtain ⟨h2, h3⟩ := h
      subst h2
      rw [ErrorToFailure_timeout]
      simp [mkFailure, allEncoded, ih h3]
  | terminated orig =>
      intro h
      simp only [roundTripSafe, beq_iff_eq] at h
      subst h
      rw [ErrorToFailure_terminated]
      simp [mkFailure, allEncoded]
  | panicE msg st wf orig =>
      intro h
      simp only [roundTripSafe, Bool.and_eq_true, Bool.not_eq_true', beq_iff_eq] at h
      obtain ⟨h1, h2⟩ := h
      subst h1; subst h2
      rw [ErrorToFailure_panicE]
      simp [mkFailure, allEncoded]
  | server msg nr cause orig ih =>
      intro h
      simp only [roundTripSafe, Bool.and_eq_true, beq_iff_eq] at h
      obtain ⟨h2, h3⟩ := h
      subst h2
      rw [ErrorToFailure_server]
      simp [mkFailure, allEncoded, ih h3]
  | activity sid stid idn at_ aid rs cause orig ih =>
      intro h
      simp only [roundTripSafe, Bool.and_eq_true, beq_iff_eq] at h
      obtain ⟨h2, h3⟩ := h
      subst h2
      rw [ErrorToFailure_activity]
      simp [mkFailure, allEncoded, ih h3]
  | childWorkflow ns wid rid wt init started rs cause orig ih =>
      intro h
      simp only [roundTripSafe, Bool.and_eq_true, beq_iff_eq] at h
      obtain ⟨h2, h3⟩ := h
      subst h2
      rw [ErrorToFailure_childWorkflow]
      simp [mkFailure, allEncoded, ih h3]
  | nexusHandler typ rb cause ih =>
      intro h
      simp only [roundTripSafe] at h
      rw [ErrorToFailure_nexusHandler]
      simp [mkFailure, allEncoded, ih h]
  | unknown msg typ =>
      intro h
      simp [roundTripSafe] at h

theorem encAttrsTop_ErrorToFailure :
    ∀ e : TErr, e ≠ .noErr → origOf e = .nilF →
      encAttrsTop (ErrorToFailure ⟨true⟩ e) = some (messageOf e, stackOf e) := by
  intro e h ho
  cases e with
  | noErr => exact absurd rfl h
  | application msg typ nr det cat cause orig =>
      simp only [origOf] at ho; subst ho
      rw [ErrorToFailure_application]
      simp [mkFailure, encAttrsTop, messageOf, stackOf]
  | canceled det orig =>
      simp only [origOf] at ho; subst ho
      rw [ErrorToFailure_canceled]
      simp [mkFailure, encAttrsTop, messageOf, stackOf]
  | timeout msg tt lhd cause orig =>
      simp only [origOf] at ho; subst ho
      rw [ErrorToFailure_timeout]
      simp [mkFailure, encAttrsTop, messageOf, stackOf]
  | terminated orig =>
      simp only [origOf] at ho; subst ho
      rw [ErrorToFailure_terminated]
      simp [mkFailure, encAttrsTop, messageOf, stackOf]
  | panicE msg st wf orig =>
      simp only [origOf] at ho; subst ho
      rw [ErrorToFailure_panicE]
      simp [mkFailure, encAttrsTop, messageOf, stackOf]
  | server msg nr cause orig =>
      simp only [origOf] at ho; subst ho
      rw [ErrorToFailure_server]
      simp [mkFailure, encAttrsTop, messageOf, stackOf]
  | activity sid stid idn at_ aid rs cause orig =>
      simp only [origOf] at ho; subst ho
      rw [ErrorToFailure_activity]
      simp [mkFailure, encAttrsTop, messageOf, stackOf]
  | childWorkflow ns wid rid wt init started rs cause orig =>
      simp only [origOf] at ho; subst ho
      rw [ErrorToFailure_childWorkflow]
      simp [mkFailure, encAttrsTop, messageOf, stackOf]
  | nexusHandler typ rb cause =>
      rw [ErrorToFailure_nexusHandler]
      simp [mkFailure, encAttrsTop, messageOf, stackOf]
  | unknown msg typ =>
      simp [ErrorToFailure, mkFailure, encAttrsTop, messageOf, stackOf]

theorem encode_decode_encode :
    ∀ e : TErr, roundTripSafe e = true →
      ErrorToFailure ⟨true⟩ (FailureToError (ErrorToFailure ⟨true⟩ e)) =
        ErrorToFailure ⟨true⟩ e := by
  have gen : ∀ f : Failure, f ≠ .nilF → isNexusFailure f = false →
      ErrorToFailure ⟨true⟩ (FailureToError f) = f := by
    intro f hf hn
    have h1 : origOf (FailureToError f) = f := origOf_FailureToError f hf hn
    have h2 : origOf (FailureToError f) ≠ .nilF := by rw [h1]; exact hf
    rw [ErrorToFailure_of_orig _ _ h2, h1]
  intro e
  induction e with
  | noErr => intro _; rfl
  | application msg typ nr det cat cause orig ih =>
      intro h
      simp only [roundTripSafe, Bool.and_eq_true, bne_iff_ne, beq_iff_eq, ne_eq] at h
      obtain ⟨⟨h1, h2⟩, h3⟩ := h
      subst h2
      refine gen _ ?_ ?_
      · rw [ErrorToFailure_application]; exact mkFailure_ne_nilF _ _ _ _ _
      · rw [ErrorToFailure_application]; simp [mkFailure, isNexusFailure]
  | canceled det orig =>
      intro h
      simp only [roundTripSafe, beq_iff_eq] at h
      subst h
      refine gen _ ?_ ?_
      · rw [ErrorToFailure_canceled]; exact mkFailure_ne_nilF _ _ _ _ _
      · rw [ErrorToFailure_canceled]; simp [mkFailure, isNexusFailure]
  | timeout msg tt lhd cause orig ih =>
      intro h
      simp only [roundTripSafe, Bool.and_eq_true, beq_iff_eq] at h
      obtain ⟨h2, h3⟩ := h
      subst h2
      refine gen _ ?_ ?_
      · rw [ErrorToFailure_timeout]; exact mkFailure_ne_nilF _ _ _ _ _
      · rw [ErrorToFailure_timeout]; simp [mkFailure, isNexusFailure]
  | terminated orig =>
      intro h
      simp only [roundTripSafe, beq_iff_eq] at h
      subst h
      refine gen _ ?_ ?_
      · rw [ErrorToFailure_terminated]; exact mkFailure_ne_nilF _ _ _ _ _
      · rw [ErrorToFailure_terminated]; simp [mkFailure, isNexusFailure]
  | panicE msg st wf orig =>
      intro h
      simp only [roundTripSafe, Bool.and_eq_true, Bool.not_eq_true', beq_iff_eq] at h
      obtain ⟨h1, h2⟩ := h
      subst h1; subst h2
      refine gen _ ?_ ?_
      · rw [ErrorToFailure_panicE]; exact mkFailure_ne_nilF _ _ _ _ _
      · rw [ErrorToFailure_panicE]; simp [mkFailure, isNexusFailure]
  | server msg nr cause orig ih =>
      intro h
      simp only [roundTripSafe, Bool.and_eq_true, beq_iff_eq] at h
      obtain ⟨h2, h3⟩ := h
      subst h2
      refine gen _ ?_ ?_
      · rw [ErrorToFailure_server]; exact mkFailure_ne_nilF _ _ _ _ _
      · rw [ErrorToFailure_server]; simp [mkFailure, isNexusFailure]
  | activity sid stid idn at_ aid rs cause orig ih =>
      intro h
      simp only [roundTripSafe, Bool.and_eq_true, beq_iff_eq] at h
      obtain ⟨h2, h3⟩ := h
      subst h2
      refine gen _ ?_ ?_
      · rw [ErrorToFailure_activity]; exact mkFailure_ne_nilF _ _ _ _ _
      · rw [ErrorToFailure_activity]; simp [mkFailure, isNexusFailure]
  | childWorkflow ns wid rid wt init started rs cause orig ih =>
      intro h
      simp only [roundTripSafe, Bool.and_eq_true, beq_iff_eq] at h
      obtain ⟨h2, h3⟩ := h
      subst h2
      refine gen _ ?_ ?_
      · rw [ErrorToFailure_childWorkflow]; exact mkFailure_ne_nilF _ _ _ _ _
      · rw [ErrorToFailure_childWorkflow]; simp [mkFailure, isNexusFailure]
  | nexusHandler typ rb cause ih =>
      intro h
      simp only [roundTripSafe] at h
      have hobs := (roundTrip_preserves ⟨true⟩ cause h).1
      have hcs := causeSuffixed_of_obs ("handler error (" ++ typ ++ ")") hobs
      rw [ErrorToFailure_nexusHandler, FailureToError_mk_nexusHandler,
        ErrorToFailure_nexusHandler, ih h, errorString_nexusHandler,
        errorString_nexusHandler, hcs]
  | unknown msg typ =>
      intro h
      simp [roundTripSafe] at h

/- ===================== Event delivery (claim C7) ===================== -/

/-- Modelled from the spec: the ActivityTaskTimedOut history event attributes
(the history event types are external generated messages). -/
structure ActivityTaskTimedOutEventAttributes where
  failure : Failure
  retryState : RetryState
  scheduledEventId : Int
  startedEventId : Int

/-- Modelled from the spec: the workflow execution event handler's
handleActivityTaskTimedOut and the activity command state machine's callback
delivery, both missing from src; per the spec the callback receives an
ActivityError wrapping the TimeoutError obtained by converting the event's
failure with the failure converter. -/
def handleActivityTaskTimedOut (identity activityType activityId : String)
    (attrs : ActivityTaskTimedOutEventAttributes) : TErr :=
  .activity attrs.scheduledEventId attrs.startedEventId identity activityType
    activityId attrs.retryState (FailureToError attrs.failure) .nilF

/-- errors.As-style search for a TimeoutError along the unwrap (cause)
chain. -/
def findTimeoutError : TErr → Option TErr
  | .noErr => none
  | e@(.timeout _ _ _ _ _) => some e
  | .application _ _ _ _ _ cause _ => findTimeoutError cause
  | .canceled _ _ => none
  | .terminated _ => none
  | .panicE _ _ _ _ => none
  | .server _ _ cause _ => findTimeoutError cause
  | .activity _ _ _ _ _ _ cause _ => findTimeoutError cause
  | .childWorkflow _ _ _ _ _ _ _ cause _ => findTimeoutError cause
  | .nexusHandler _ _ cause => findTimeoutError cause
  | .unknown _ _ => none

/- ===================== Spec-claimed Error() formats (claim C8) ===================== -/

/-- Follows the spec's words verbatim (section 4.2): the claimed
unconditional ApplicationError.Error() format
"message (type: type, retryable: bool)" with the optional cause suffix. -/
def specApplicationErrorString (msg typ : String) (nr : Bool) (cause : TErr) : String :=
  causeSuffixed (msg ++ " (type: " ++ typ ++ ", retryable: " ++ boolStr (!nr) ++ ")") cause

/-- Follows the spec's words verbatim (section 4.2): the claimed
TimeoutError.Error() format "message (type: timeoutType)" with the optional
cause suffix. -/
def specTimeoutErrorString (msg : String) (tt : TimeoutType) (cause : TErr) : String :=
  causeSuffixed (msg ++ " (type: " ++ timeoutTypeStr tt ++ ")") cause

/- ===================== Claim theorems: failure converter ===================== -/

/-- Claim C1 (amended): for every error of the closed taxonomy built without
an original-failure sidecar, excluding application errors typed with the
reserved string "PanicError" and workflow-originated panics, the default
round trip FailureToError(ErrorToFailure(e)) preserves the Error() string,
the type, the non_retryable flag, the category and, recursively, the cause. -/
theorem c1_roundtrip_amended : ∀ e : TErr, roundTripSafe e = true →
    errObs (FailureToError (ErrorToFailure GetDefaultFailureConverter e)) = errObs e :=
  fun e h => (roundTrip_preserves GetDefaultFailureConverter e h).1

theorem c1_roundtrip_witness :
    roundTripSafe (TErr.application "message" "customType" true []
      .unspecified (TErr.application "cause error" "" false [] .unspecified .noErr .nilF)
      .nilF) = true ∧
    errObs (FailureToError (ErrorToFailure GetDefaultFailureConverter
      (TErr.application "message" "customType" true []
        .unspecified (TErr.application "cause error" "" false [] .unspecified .noErr .nilF)
        .nilF))) =
      errObs (TErr.application "message" "customType" true []
        .unspecified (TErr.application "cause error" "" false [] .unspecified .noErr .nilF)
        .nilF) :=
  ⟨by decide, c1_roundtrip_amended _ (by decide)⟩

/-- Claim C1 counterexample: an ApplicationError in the taxonomy whose type
is the reserved string "PanicError" does not survive the round trip — the
converter rebuilds it as a plain PanicError, so its Error() string (and its
type, non_retryable and category observables) change. -/
theorem c1_roundtrip_counterexample :
    errorString (TErr.application "message" "PanicError" false [] .unspecified
      .noErr .nilF) = "message (type: PanicError, retryable: true)" ∧
    errorString (FailureToError (ErrorToFailure GetDefaultFailureConverter
      (TErr.application "message" "PanicError" false [] .unspecified .noErr .nilF))) =
      "message" ∧
    errObs (FailureToError (ErrorToFailure GetDefaultFailureConverter
      (TErr.application "message" "PanicError" false [] .unspecified .noErr .nilF))) ≠
      errObs (TErr.application "message" "PanicError" false [] .unspecified
        .noErr .nilF) := by
  refine ⟨by decide, by decide, by decide⟩

/-- Claim C2: with EncodeCommonAttributes enabled, ErrorToFailure produces
"Encoded failure" messages and empty stack traces at every nesting level,
storing the true message and stack trace in the encoded payload;
FailureToError restores the original message and stack trace at every level;
and re-encoding the decoded error reproduces the encoded failure exactly. -/
theorem c2_encode_common_attributes :
    ∀ e : TErr, roundTripSafe e = true → e ≠ .noErr →
      (allEncoded (ErrorToFailure ⟨true⟩ e) = true ∧
        encAttrsTop (ErrorToFailure ⟨true⟩ e) = some (messageOf e, stackOf e)) ∧
      msgStackObs (FailureToError (ErrorToFailure ⟨true⟩ e)) = msgStackObs e ∧
      ErrorToFailure ⟨true⟩ (FailureToError (ErrorToFailure ⟨true⟩ e)) =
        ErrorToFailure ⟨true⟩ e := by
  intro e h hne
  have ho : origOf e = .nilF := by
    cases e <;>
      simp_all [roundTripSafe, origOf, Bool.and_eq_true, beq_iff_eq]
  exact ⟨⟨allEncoded_ErrorToFailure e h, encAttrsTop_ErrorToFailure e hne ho⟩,
    (roundTrip_preserves ⟨true⟩ e h).2, encode_decode_encode e h⟩

theorem c2_encode_common_attributes_witness :
    (allEncoded (ErrorToFailure ⟨true⟩
        (TErr.application "message" "customType" true [] .unspecified
          (TErr.application "sub message" "sub customType" true [] .unspecified
            (TErr.application "cause error" "" false [] .unspecified .noErr .nilF)
            .nilF) .nilF)) = true ∧
      encAttrsTop (ErrorToFailure ⟨true⟩
        (TErr.application "message" "customType" true [] .unspecified
          (TErr.application "sub message" "sub customType" true [] .unspecified
            (TErr.application "cause error" "" false [] .unspecified .noErr .nilF)
            .nilF) .nilF)) = some ("message", "")) ∧
    msgStackObs (FailureToError (ErrorToFailure ⟨true⟩
        (TErr.application "message" "customType" true [] .unspecified
          (TErr.application "sub message" "sub customType" true [] .unspecified
            (TErr.application "cause error" "" false [] .unspecified .noErr .nilF)
            .nilF) .nilF))) =
      msgStackObs (TErr.application "message" "customType" true [] .unspecified
          (TErr.application "sub message" "sub customType" true [] .unspecified
            (TErr.application "cause error" "" false [] .unspecified .noErr .nilF)
            .nilF) .nilF) ∧
    ErrorToFailure ⟨true⟩ (FailureToError (ErrorToFailure ⟨true⟩
        (TErr.application "message" "customType" true [] .unspecified
          (TErr.application "sub message" "sub customType" true [] .unspecified
            (TErr.application "cause error" "" false [] .unspecified .noErr .nilF)
            .nilF) .nilF))) =
      ErrorToFailure ⟨true⟩
        (TErr.application "message" "customType" true [] .unspecified
          (TErr.application "sub message" "sub customType" true [] .unspecified
            (TErr.application "cause error" "" false [] .unspecified .noErr .nilF)
            .nilF) .nilF) :=
  c2_encode_common_attributes _ (by decide) (by decide)

/-- Claim C3: IsRetryable — terminated, canceled and workflow-panic errors
are never retryable; application errors are retryable iff non_retryable is
false and the type is not listed; timeouts are retryable exactly for
StartToClose and Heartbeat. -/
theorem c3_isRetryable :
    (∀ (l : List String) (o : Failure), IsRetryable (.terminated o) l = false) ∧
    (∀ (l : List String) (det : List Payload) (o : Failure),
      IsRetryable (.canceled det o) l = false) ∧
    (∀ (l : List String) (m s : String) (o : Failure),
      IsRetryable (.panicE m s true o) l = false) ∧
    (∀ (l : List String) (m typ : String) (nr : Bool) (det : List Payload)
        (cat : ErrCategory) (c : TErr) (o : Failure),
      IsRetryable (.application m typ nr det cat c o) l = (!nr && !l.contains typ)) ∧
    (∀ (l : List String) (m : String) (tt : TimeoutType) (lhd : List Payload)
        (c : TErr) (o : Failure),
      IsRetryable (.timeout m tt lhd c o) l =
        (tt == .startToClose || tt == .heartbeat)) :=
  ⟨fun _ _ => rfl, fun _ _ _ => rfl, fun _ _ _ _ => rfl,
    fun _ _ _ _ _ _ _ _ => rfl, fun _ _ _ _ _ _ => rfl⟩

/-- Claim C4: an error that carries an original_failure sidecar re-emits it
unchanged through ErrorToFailure, whatever the values of its typed fields;
and every error FailureToError builds from a non-nil wire failure (any kind
but the external nexus handler error) carries that failure as its sidecar. -/
theorem c4_original_failure :
    (∀ (fc : DefaultFailureConverter) (e : TErr), origOf e ≠ .nilF →
      ErrorToFailure fc e = origOf e) ∧
    (∀ f : Failure, f ≠ .nilF → isNexusFailure f = false →
      origOf (FailureToError f) = f) :=
  ⟨ErrorToFailure_of_orig, origOf_FailureToError⟩

theorem c4_original_failure_witness :
    ErrorToFailure GetDefaultFailureConverter
      (TErr.application "errors are immutable, message cannot be changed"
        "ApplicationError (is ignored)" false [] .unspecified .noErr
        (.mk "actual message" "some stack trace" "JavaSDK" none
          (.application "SomeJavaException" true [] .unspecified) .nilF)) =
      .mk "actual message" "some stack trace" "JavaSDK" none
        (.application "SomeJavaException" true [] .unspecified) .nilF ∧
    origOf (FailureToError
      (.mk "message" "long stack trace" "JavaSDK" none
        (.activityInfo 2 1 "alex" "" "" .unspecified) .nilF)) =
      .mk "message" "long stack trace" "JavaSDK" none
        (.activityInfo 2 1 "alex" "" "" .unspecified) .nilF :=
  ⟨c4_original_failure.1 GetDefaultFailureConverter _ (by decide),
   c4_original_failure.2 _ (by decide) (by decide)⟩

/-- Claim C7: a heartbeat TimeoutError carrying details "my details",
converted to the wire failure form and delivered through an
ActivityTaskTimedOut event to the activity state machine's callback, still
reports HasLastHeartbeatDetails and decodes the details to "my details";
a TimeoutError built without details reports no details and ErrNoData. -/
theorem c7_heartbeat_details :
    (findTimeoutError (handleActivityTaskTimedOut "" "activityType" "activityID"
      ⟨ErrorToFailure GetDefaultFailureConverter
          (TErr.timeout "timeout" .heartbeat [ToPayload (.str "my details")] .noErr .nilF),
        .timeoutState, 5, 6⟩)).map HasLastHeartbeatDetails = some true ∧
    (findTimeoutError (handleActivityTaskTimedOut "" "activityType" "activityID"
      ⟨ErrorToFailure GetDefaultFailureConverter
          (TErr.timeout "timeout" .heartbeat [ToPayload (.str "my details")] .noErr .nilF),
        .timeoutState, 5, 6⟩)).map LastHeartbeatDetails =
      some (.ok "my details") ∧
    HasLastHeartbeatDetails (NewTimeoutError "timeout" .scheduleToStart .noErr) = false ∧
    LastHeartbeatDetails (NewTimeoutError "timeout" .scheduleToStart .noErr) =
      .error .ErrNoData :=
  ⟨rfl, rfl, rfl, rfl⟩

/-- Claim C8 (amended): ApplicationError.Error() follows the spec format
"message (type: type, retryable: bool)[: cause]" only when the type is
non-empty; with an empty type it is the bare message (with the cause
suffix).  TimeoutError.Error() follows the spec format unconditionally. -/
theorem c8_error_formats_amended :
    (∀ (msg typ : String) (nr : Bool) (det : List Payload) (cat : ErrCategory)
        (cause : TErr) (orig : Failure), typ ≠ "" →
      errorString (TErr.application msg typ nr det cat cause orig) =
        specApplicationErrorString msg typ nr cause) ∧
    (∀ (msg : String) (nr : Bool) (det : List Payload) (cat : ErrCategory)
        (cause : TErr) (orig : Failure),
      errorString (TErr.application msg "" nr det cat cause orig) =
        causeSuffixed msg cause) ∧
    (∀ (msg : String) (tt : TimeoutType) (lhd : List Payload) (cause : TErr)
        (orig : Failure),
      errorString (TErr.timeout msg tt lhd cause orig) =
        specTimeoutErrorString msg tt cause) := by
  refine ⟨?_, ?_, ?_⟩
  · intro msg typ nr det cat cause orig h
    rw [errorString_application, specApplicationErrorString, appBase, if_neg h]
  · intro msg nr det cat cause orig
    rw [errorString_application, appBase, if_pos rfl]
  · intro msg tt lhd cause orig
    rw [errorString_timeout, specTimeoutErrorString]

theorem c8_error_formats_witness :
    errorString (TErr.application "message" "customType" true [] .unspecified
      (TErr.unknown "cause error" "") .nilF) =
      specApplicationErrorString "message" "customType" true (TErr.unknown "cause error" "") ∧
    errorString (TErr.application "another reason" "" false [] .unspecified .noErr .nilF) =
      causeSuffixed "another reason" .noErr ∧
    errorString (TErr.timeout "timeout" .startToClose [] .noErr .nilF) =
      specTimeoutErrorString "timeout" .startToClose .noErr :=
  ⟨c8_error_formats_amended.1 "message" "customType" true [] .unspecified
    (TErr.unknown "cause error" "") .nilF (by decide),
   c8_error_formats_amended.2.1 "another reason" false [] .unspecified .noErr .nilF,
   c8_error_formats_amended.2.2 "timeout" .startToClose [] .noErr .nilF⟩

/-- Claim C8 counterexample: an ApplicationError with an empty type renders
as the bare message, not as the spec's unconditional
"message (type: , retryable: bool)" format (the repository's own test
expects the bare message). -/
theorem c8_error_formats_counterexample :
    errorString (TErr.application "another reason" "" false [] .unspecified
      .noErr .nilF) = "another reason" ∧
    specApplicationErrorString "another reason" "" false .noErr =
      "another reason (type: , retryable: true)" ∧
    errorString (TErr.application "another reason" "" false [] .unspecified
        .noErr .nilF) ≠
      specApplicationErrorString "another reason" "" false .noErr := by
  refine ⟨by decide, by decide, by decide⟩

/-- Claim C10: NewApplicationError called with an explicit nil detail yields
HasDetails() true, while with no details at all HasDetails() is false and
Details() returns ErrNoData. -/
theorem c10_nil_details :
    HasDetails (NewApplicationError "another reason" "" false .noErr [.nilV]) = true ∧
    HasDetails (NewApplicationError "another reason" "" false .noErr []) = false ∧
    Details0 (NewApplicationError "another reason" "" false .noErr []) =
      .error .ErrNoData :=
  ⟨rfl, rfl, rfl⟩

/- ===================== Workflow contexts (embedded from source) ===================== -/

/-- ErrCanceled, embedded from source: the error Context.Err returns after
cancellation (NewCanceledError()). -/
def ErrCanceled : TErr := .canceled [] .nilF

/-- A reference to a workflow Context value.  background and valueOf embed
the source's emptyCtx and valueCtx (the key and value of a valueCtx play no
role in cancellation); cancelOf points into the heap of cancelCtx objects;
foreignCtx stands for an implementation of the Context interface from
outside the package, exposing only whether its Done() channel is nil. -/
inductive CtxRef where
  | background
  | foreignCtx (hasDone : Bool)
  | valueOf (parent : CtxRef) (key val : Nat)
  | cancelOf (id : Nat)
deriving Repr, DecidableEq

/-- Embedded from source: the mutable state of one cancelCtx object — its
embedded parent Context, err (set to non-nil by the first cancel call), the
state of its done channel (closed by the first cancel call) and the set of
registered canceler children (ids of child cancelCtx objects). -/
structure CancelNode where
  parentRef : CtxRef
  err : Option TErr
  doneClosed : Bool
  children : List Nat
deriving Repr, DecidableEq

/-- The heap of cancelCtx objects; a cancelOf reference indexes it. -/
abbrev Heap := List CancelNode

def getN (h : Heap) (i : Nat) : Option CancelNode := h[i]?

def setN (h : Heap) (i : Nat) (n : CancelNode) : Heap := h.set i n

/-- The err field of the context at i (outer none: no such node). -/
def errMap (h : Heap) (i : Nat) : Option (Option TErr) := (getN h i).map (·.err)

/-- Whether the done channel of the context at i is closed. -/
def doneMap (h : Heap) (i : Nat) : Option Bool := (getN h i).map (·.doneClosed)

/-- Embedded from source: whether a Context's Done() returns nil.  emptyCtx
returns nil, cancelCtx returns its done channel (never nil), valueCtx
delegates to its embedded Context. -/
def ctxDoneNil : CtxRef → Bool
  | .background => true
  | .foreignCtx hasDone => !hasDone
  | .valueOf p _ _ => ctxDoneNil p
  | .cancelOf _ => false

/-- Embedded from source: parentCancelCtx follows the chain of parent
references through valueCtx wrappers until it finds a cancelCtx; any other
concrete type ends the search with no result. -/
def parentCancelCtx : CtxRef → Option Nat
  | .cancelOf id => some id
  | .valueOf p _ _ => parentCancelCtx p
  | _ => none

/-- Embedded from source: removeChild deletes a context from its parent's
children set (a no-op when no parent cancelCtx is found). -/
def removeChild (h : Heap) (parent : CtxRef) (child : Nat) : Heap :=
  match parentCancelCtx parent with
  | none => h
  | some p =>
      match getN h p with
      | none => h
      | some pnode =>
          setN h p ⟨pnode.parentRef, pnode.err, pnode.doneClosed,
            pnode.children.erase child⟩

/-- The state of a cancelCtx after its first cancel call: err set, done
channel closed, children set to nil. -/
def cancelledNode (e : TErr) (n : CancelNode) : CancelNode :=
  ⟨n.parentRef, some e, true, []⟩

/-- Embedded from source: cancelCtx.cancel.  When already cancelled (err
present under the lock) it returns immediately; otherwise it records err,
closes the done channel, cancels every registered child (without removing
them from itself), and finally removes itself from its parent when
removeFromParent is set.  The fuel argument makes the child recursion
structural; on well-formed heaps (children have strictly larger ids) a fuel
of the heap size is never exhausted. -/
def cancelCore : Nat → Heap → Nat → Bool → TErr → Heap
  | 0, h, _, _, _ => h
  | fuel + 1, h, id, removeFromParent, e =>
      match getN h id with
      | none => h
      | some node =>
          if node.err.isSome then h
          else
            let h1 := setN h id (cancelledNode e node)
            let h2 := node.children.foldl (fun acc c => cancelCore fuel acc c false e) h1
            if removeFromParent then removeChild h2 node.parentRef id else h2

/-- cancelCtx.cancel with the fuel instantiated to the heap size. -/
def cancelCtxCancel (h : Heap) (id : Nat) (removeFromParent : Bool) (e : TErr) : Heap :=
  cancelCore h.length h id removeFromParent e

/-- Embedded from source: newCancelCtx allocates an initialized cancelCtx
with the given parent; the new id is the previous heap size. -/
def newCancelCtx (h : Heap) (parent : CtxRef) : Heap × Nat :=
  (h ++ [⟨parent, none, false, []⟩], h.length)

/-- Embedded from source: propagateCancel.  A parent whose Done() is nil is
never cancelled and nothing is registered; otherwise the nearest parent
cancelCtx is located — if it is already cancelled the child is cancelled at
once with the parent's error, else the child is registered in its children
set.  none models the panic "cancelCtx not found" (and the nil dereference
of a dangling parent pointer, impossible on well-formed heaps). -/
def propagateCancel (h : Heap) (parent : CtxRef) (child : Nat) : Option Heap :=
  if ctxDoneNil parent then some h
  else
    match parentCancelCtx parent with
    | none => none
    | some p =>
        match getN h p with
        | none => none
        | some pnode =>
            match pnode.err with
            | some parentErr => some (cancelCtxCancel h child false parentErr)
            | none =>
                some (setN h p ⟨pnode.parentRef, pnode.err, pnode.doneClosed,
                  pnode.children ++ [child]⟩)

/-- Embedded from source: WithCancel — a new cancelCtx registered with its
parent through propagateCancel (none when propagateCancel panics). -/
def WithCancel (h : Heap) (parent : CtxRef) : Option (Heap × Nat) :=
  match propagateCancel (newCancelCtx h parent).1 parent (newCancelCtx h parent).2 with
  | some h2 => some (h2, (newCancelCtx h parent).2)
  | none => none

/-- Embedded from source: NewDisconnectedContext — newCancelCtx without
propagateCancel, so the parent never learns about the child. -/
def NewDisconnectedContext (h : Heap) (parent : CtxRef) : Heap × Nat :=
  newCancelCtx h parent

/-- Parent references built only from Background, WithValue, WithCancel and
NewDisconnectedContext (no foreign Context implementation). -/
def sdkBuilt : CtxRef → Bool
  | .background => true
  | .foreignCtx _ => false
  | .valueOf p _ _ => sdkBuilt p
  | .cancelOf _ => true

/-- Every cancelCtx pointer along the reference points into the heap. -/
def ctxRefWF (h : Heap) : CtxRef → Bool
  | .background => true
  | .foreignCtx _ => true
  | .valueOf p _ _ => ctxRefWF h p
  | .cancelOf id => decide (id < h.length)

/-- Well-formedness of one node: registered children have strictly larger
ids inside the heap, and a cancelled node has no registered children. -/
def nodeWF (len i : Nat) (n : CancelNode) : Bool :=
  n.children.all (fun j => decide (i < j) && decide (j < len)) &&
    (!n.err.isSome || n.children.isEmpty)

def wfFrom (len : Nat) : Nat → List CancelNode → Bool
  | _, [] => true
  | i, n :: rest => nodeWF len i n && wfFrom len (i + 1) rest

/-- Well-formedness of the whole heap, as real executions maintain it: a
child registered by propagateCancel is always younger than its parent, and
cancel empties the children set when it sets err. -/
def wfHeap (h : Heap) : Bool := wfFrom h.length 0 h

/-- Reachability through the registered-children sets: the live descendants
a cancel call walks. -/
inductive Reaches (h : Heap) : Nat → Nat → Prop
  | refl (i : Nat) : Reaches h i i
  | step {i j k : Nat} {n : CancelNode} (hn : getN h i = some n)
      (hj : j ∈ n.children) (hr : Reaches h j k) : Reaches h i k

/- ===================== Heap basics ===================== -/

theorem lt_length_of_getN {h : Heap} {i : Nat} {n : CancelNode}
    (hg : getN h i = some n) : i < h.length := by
  by_contra hlt
  rw [getN, List.getElem?_eq_none (Nat.le_of_not_lt hlt)] at hg
  exact Option.noConfusion hg

theorem getN_setN_self {h : Heap} {i : Nat} (n : CancelNode) (hi : i < h.length) :
    getN (setN h i n) i = some n := by
  rw [getN, setN, List.getElem?_set_self hi]

theorem getN_setN_ne {h : Heap} {i j : Nat} (n : CancelNode) (hij : i ≠ j) :
    getN (setN h i n) j = getN h j := by
  rw [getN, setN, List.getElem?_set_ne hij, getN]

theorem length_setN (h : Heap) (i : Nat) (n : CancelNode) :
    (setN h i n).length = h.length := List.length_set h i n

theorem length_removeChild (h : Heap) (p : CtxRef) (c : Nat) :
    (removeChild h p c).length = h.length := by
  unfold removeChild
  split
  · rfl
  · split
    · rfl
    · exact length_setN _ _ _

theorem errMap_removeChild (h : Heap) (p : CtxRef) (c j : Nat) :
    errMap (removeChild h p c) j = errMap h j := by
  unfold removeChild
  split
  · rfl
  · split
    · rfl
    · rename_i x1 q hq x2 pnode hgq
      by_cases hqj : q = j
      · subst hqj
        rw [errMap, getN_setN_self _ (lt_length_of_getN hgq), errMap, hgq]
        rfl
      · rw [errMap, getN_setN_ne _ hqj, errMap]

theorem doneMap_removeChild (h : Heap) (p : CtxRef) (c j : Nat) :
    doneMap (removeChild h p c) j = doneMap h j := by
  unfold removeChild
  split
  · rfl
  · split
    · rfl
    · rename_i x1 q hq x2 pnode hgq
      by_cases hqj : q = j
      · subst hqj
        rw [doneMap, getN_setN_self _ (lt_length_of_getN hgq), doneMap, hgq]
        rfl
      · rw [doneMap, getN_setN_ne _ hqj, doneMap]

theorem length_cancelCore (e : TErr) :
    ∀ (fuel : Nat) (g : Heap) (c : Nat) (rm : Bool),
      (cancelCore fuel g c rm e).length = g.length := by
  intro fuel
  induction fuel with
  | zero => intro g c rm; rfl
  | succ fuel ih =>
      intro g c rm
      rw [cancelCore]
      split
      · rfl
      · rename_i node heq
        split
        · rfl
        · have hfold : ∀ (cs : List Nat) (g1 : Heap),
              (List.foldl (fun acc c2 => cancelCore fuel acc c2 false e) g1 cs).length =
                g1.length := by
            intro cs
            induction cs with
            | nil => intro g1; rfl
            | cons c2 rest ih2 =>
                intro g1
                rw [List.foldl_cons, ih2, ih]
          simp only []
          split
          · rw [length_removeChild, hfold, length_setN]
          · rw [hfold, length_setN]

theorem cancelCore_keeps_errSome (e : TErr) :
    ∀ (fuel : Nat) (g : Heap) (c : Nat) (j : Nat) (n : CancelNode),
      getN g j = some n → n.err.isSome = true →
      getN (cancelCore fuel g c false e) j = some n := by
  intro fuel
  induction fuel with
  | zero => intro g c j n hg _; exact hg
  | succ fuel ih =>
      intro g c j n hg he
      rw [cancelCore]
      split
      · exact hg
      · rename_i node heq
        split
        · exact hg
        · rename_i hne
          have hcj : c ≠ j := by
            intro hcj; subst hcj
            rw [hg] at heq
            cases heq
            exact hne he
          have h1 : getN (setN g c (cancelledNode e node)) j = some n := by
            rw [getN_setN_ne _ hcj]; exact hg
          have hfold : ∀ (cs : List Nat) (g1 : Heap), getN g1 j = some n →
              getN (List.foldl (fun acc c2 => cancelCore fuel acc c2 false e) g1 cs) j =
                some n := by
            intro cs
            induction cs with
            | nil => intro g1 hgj; exact hgj
            | cons c2 rest ih2 => intro g1 hgj; exact ih2 _ (ih _ _ _ _ hgj he)
          exact hfold _ _ h1

/- ===================== Cancellation cascade invariants ===================== -/

/-- The context at i exists and is not yet cancelled. -/
abbrev liveAt (h : Heap) (i : Nat) : Prop :=
  ∃ n, getN h i = some n ∧ n.err = none

/-- In g, the context at i is the cancelled version (error e) of the live
node the reference heap h holds at i. -/
abbrev cancelledAt (e : TErr) (h g : Heap) (i : Nat) : Prop :=
  ∃ n, getN h i = some n ∧ n.err = none ∧ getN g i = some (cancelledNode e n)

/-- g differs from the reference heap h only by cancelling (with error e)
nodes that are live in h. -/
abbrev CancelRel (e : TErr) (h g : Heap) : Prop :=
  g.length = h.length ∧ ∀ i, getN g i = getN h i ∨ cancelledAt e h g i

/-- Every node the cascade has cancelled — except those whose cancel call is
still running (the S list) — has all its live h-children cancelled too. -/
abbrev OneStepClosedExcept (e : TErr) (h g : Heap) (S : List Nat) : Prop :=
  ∀ i, cancelledAt e h g i → i ∈ S ∨
    ∀ n j, getN h i = some n → j ∈ n.children → liveAt h j → cancelledAt e h g j

theorem cancelledAt_of_cancelCore {e : TErr} {h g : Heap} {j : Nat}
    (hc : cancelledAt e h g j) (fuel c : Nat) :
    cancelledAt e h (cancelCore fuel g c false e) j := by
  obtain ⟨n, hn, hne, hgj⟩ := hc
  exact ⟨n, hn, hne, cancelCore_keeps_errSome e fuel g c j _ hgj rfl⟩

theorem cancelledAt_of_foldl {e : TErr} {h : Heap} (fuel : Nat) :
    ∀ (cs : List Nat) (g : Heap) (j : Nat), cancelledAt e h g j →
      cancelledAt e h (cs.foldl (fun acc c2 => cancelCore fuel acc c2 false e) g) j := by
  intro cs
  induction cs with
  | nil => intro g j hc; exact hc
  | cons c2 rest ih =>
      intro g j hc
      rw [List.foldl_cons]
      exact ih _ _ (cancelledAt_of_cancelCore hc fuel c2)

/- ===================== Well-formedness accessors ===================== -/

theorem wfFrom_get (len : Nat) :
    ∀ (l : List CancelNode) (k i : Nat) (n : CancelNode),
      wfFrom len k l = true → l[i]? = some n → nodeWF len (k + i) n = true := by
  intro l
  induction l with
  | nil => intro k i n _ hg; simp at hg
  | cons head tail ih =>
      intro k i n hw hg
      rw [wfFrom, Bool.and_eq_true] at hw
      cases i with
      | zero =>
          simp only [List.getElem?_cons_zero, Option.some.injEq] at hg
          subst hg
          simpa using hw.1
      | succ i =>
          have hg2 : tail[i]? = some n := by simpa using hg
          have hr := ih (k + 1) i n hw.2 hg2
          have harith : k + 1 + i = k + (i + 1) := by omega
          rw [harith] at hr
          exact hr

theorem wfHeap_node {h : Heap} {i : Nat} {n : CancelNode} (hw : wfHeap h = true)
    (hg : getN h i = some n) : nodeWF h.length i n = true := by
  have hr := wfFrom_get h.length h 0 i n hw hg
  simpa using hr

theorem nodeWF_children {len i : Nat} {n : CancelNode} (hw : nodeWF len i n = true)
    {j : Nat} (hj : j ∈ n.children) : i < j ∧ j < len := by
  rw [nodeWF, Bool.and_eq_true] at hw
  have hall := (List.all_eq_true.mp hw.1) j hj
  simpa using hall

theorem nodeWF_err {len i : Nat} {n : CancelNode} (hw : nodeWF len i n = true)
    (he : n.err.isSome = true) : n.children = [] := by
  rw [nodeWF, Bool.and_eq_true] at hw
  have h2 := hw.2
  rw [he] at h2
  simp only [Bool.not_true, Bool.false_or] at h2
  exact List.isEmpty_iff.mp h2

/- ===================== The cancellation cascade ===================== -/

theorem cancelCore_spec (e : TErr) (h : Heap) (hwf : wfHeap h = true) :
    ∀ (fuel : Nat) (g : Heap) (c : Nat) (S : List Nat),
      CancelRel e h g → OneStepClosedExcept e h g S → h.length ≤ fuel + c →
      CancelRel e h (cancelCore fuel g c false e) ∧
      OneStepClosedExcept e h (cancelCore fuel g c false e) S ∧
      (liveAt h c → cancelledAt e h (cancelCore fuel g c false e) c) := by
  intro fuel
  induction fuel with
  | zero =>
      intro g c S hrel hcl hb
      refine ⟨hrel, hcl, ?_⟩
      rintro ⟨n, hn, hne⟩
      have := lt_length_of_getN hn
      omega
  | succ fuel ih =>
      intro g c S hrel hcl hb
      rw [cancelCore]
      split
      · rename_i hgc
        refine ⟨hrel, hcl, ?_⟩
        rintro ⟨n, hn, hne⟩
        rcases hrel.2 c with hsame | hcan
        · rw [hgc, hn] at hsame
          exact Option.noConfusion hsame
        · obtain ⟨n2, hn2, hne2, hg2⟩ := hcan
          rw [hgc] at hg2
          exact Option.noConfusion hg2
      · rename_i node hgc
        split
        · rename_i hes
          refine ⟨hrel, hcl, ?_⟩
          rintro ⟨n, hn, hne⟩
          rcases hrel.2 c with hsame | hcan
          · have hhc : getN h c = some node := by rw [← hsame]; exact hgc
            rw [hn] at hhc
            injection hhc with hnn
            rw [← hnn, hne] at hes
            exact Bool.noConfusion hes
          · exact hcan
        · rename_i hes
          have hsame : getN h c = some node := by
            rcases hrel.2 c with hsame | hcan
            · rw [← hsame]; exact hgc
            · obtain ⟨n2, hn2, hne2, hg2⟩ := hcan
              rw [hgc] at hg2
              injection hg2 with hg2
              rw [hg2] at hes
              exact absurd rfl hes
          have hnerr : node.err = none := by
            cases hne2 : node.err
            · rfl
            · rw [hne2] at hes; exact absurd rfl hes
          have hlen : g.length = h.length := hrel.1
          have hc_lt_h : c < h.length := lt_length_of_getN hsame
          have hc_lt_g : c < g.length := by omega
          have hwfc := wfHeap_node hwf hsame
          have hcanc1 : cancelledAt e h (setN g c (cancelledNode e node)) c :=
            ⟨node, hsame, hnerr, getN_setN_self _ hc_lt_g⟩
          have htrans1 : ∀ j, cancelledAt e h g j →
              cancelledAt e h (setN g c (cancelledNode e node)) j := by
            intro j hj
            obtain ⟨n2, hn2, hne2, hg2⟩ := hj
            by_cases hjc : c = j
            · subst hjc; exact hcanc1
            · exact ⟨n2, hn2, hne2, by rw [getN_setN_ne _ hjc]; exact hg2⟩
          have hrel1 : CancelRel e h (setN g c (cancelledNode e node)) := by
            refine ⟨by rw [length_setN]; exact hlen, ?_⟩
            intro i
            by_cases hic : c = i
            · subst hic; exact Or.inr hcanc1
            · rcases hrel.2 i with hsame2 | hcan2
              · exact Or.inl (by rw [getN_setN_ne _ hic]; exact hsame2)
              · exact Or.inr (htrans1 i hcan2)
          have hcl1 : OneStepClosedExcept e h (setN g c (cancelledNode e node)) (c :: S) := by
            intro i hi
            by_cases hic : i = c
            · subst hic; exact Or.inl (List.mem_cons_self _ _)
            · have hig : cancelledAt e h g i := by
                obtain ⟨n2, hn2, hne2, hg2⟩ := hi
                refine ⟨n2, hn2, hne2, ?_⟩
                rw [getN_setN_ne _ (fun hx => hic hx.symm)] at hg2
                exact hg2
              rcases hcl i hig with hS | hclosure
              · exact Or.inl (List.mem_cons_of_mem _ hS)
              · exact Or.inr (fun n2 j hn2 hj hlj => htrans1 j (hclosure n2 j hn2 hj hlj))
          have hfold : ∀ (cs : List Nat), (∀ c2 ∈ cs, c < c2 ∧ c2 < h.length) →
              ∀ (g1 : Heap), CancelRel e h g1 → OneStepClosedExcept e h g1 (c :: S) →
              CancelRel e h (cs.foldl (fun acc c2 => cancelCore fuel acc c2 false e) g1) ∧
              OneStepClosedExcept e h
                (cs.foldl (fun acc c2 => cancelCore fuel acc c2 false e) g1) (c :: S) ∧
              (∀ c2 ∈ cs, liveAt h c2 →
                cancelledAt e h
                  (cs.foldl (fun acc c2 => cancelCore fuel acc c2 false e) g1) c2) := by
            intro cs
            induction cs with
            | nil =>
                intro _ g1 hr1 hc1
                exact ⟨hr1, hc1, fun c2 hc2 => absurd hc2 (List.not_mem_nil _)⟩
            | cons c2 rest ih2 =>
                intro hmem g1 hr1 hc1
                have hb2 : h.length ≤ fuel + c2 := by
                  have := hmem c2 (List.mem_cons_self _ _)
                  omega
                obtain ⟨hr2, hc2cl, hcc2⟩ := ih g1 c2 (c :: S) hr1 hc1 hb2
                rw [List.foldl_cons]
                obtain ⟨hr3, hc3, hl3⟩ :=
                  ih2 (fun x hx => hmem x (List.mem_cons_of_mem _ hx)) _ hr2 hc2cl
                refine ⟨hr3, hc3, ?_⟩
                intro x hx hlx
                rcases List.mem_cons.mp hx with hxe | hxr
                · subst hxe
                  exact cancelledAt_of_foldl fuel rest _ x (hcc2 hlx)
                · exact hl3 x hxr hlx
          have hchild : ∀ c2 ∈ node.children, c < c2 ∧ c2 < h.length :=
            fun c2 hc2 => nodeWF_children hwfc hc2
          obtain ⟨hrF, hclF, hlF⟩ := hfold node.children hchild _ hrel1 hcl1
          have hcancF : cancelledAt e h
              (node.children.foldl (fun acc c2 => cancelCore fuel acc c2 false e)
                (setN g c (cancelledNode e node))) c :=
            cancelledAt_of_foldl fuel _ _ _ hcanc1
          refine ⟨hrF, ?_, fun _ => hcancF⟩
          intro i hi
          by_cases hic : i = c
          · subst hic
            refine Or.inr ?_
            intro n2 j hn2 hj hlj
            rw [hsame] at hn2
            injection hn2 with hn2
            rw [← hn2] at hj
            exact hlF j hj hlj
          · rcases hclF i hi with hS | hclosure
            · rcases List.mem_cons.mp hS with h1 | h2
              · exact absurd h1 hic
              · exact Or.inl h2
            · exact Or.inr hclosure

/- ===================== cancelCtxCancel decomposition ===================== -/

theorem cancelCtxCancel_none {h : Heap} {id : Nat} (rm : Bool) (e : TErr)
    (hg : getN h id = none) : cancelCtxCancel h id rm e = h := by
  rw [cancelCtxCancel]
  cases hl : h.length with
  | zero => rfl
  | succ n => rw [cancelCore, hg]

theorem cancelCtxCancel_errSome {h : Heap} {id : Nat} {node : CancelNode} (rm : Bool)
    (e : TErr) (hg : getN h id = some node) (he : node.err.isSome = true) :
    cancelCtxCancel h id rm e = h := by
  rw [cancelCtxCancel]
  have hm : h.length = (h.length - 1) + 1 := by
    have := lt_length_of_getN hg; omega
  rw [hm, cancelCore, hg]
  simp [he]

theorem cancelCtxCancel_live {h : Heap} {id : Nat} {node : CancelNode} {m : Nat}
    (rm : Bool) (e : TErr) (hg : getN h id = some node) (he : node.err = none)
    (hm : h.length = m + 1) :
    cancelCtxCancel h id rm e =
      (if rm then
        removeChild
          (node.children.foldl (fun acc c2 => cancelCore m acc c2 false e)
            (setN h id (cancelledNode e node))) node.parentRef id
      else
        node.children.foldl (fun acc c2 => cancelCore m acc c2 false e)
          (setN h id (cancelledNode e node))) := by
  rw [cancelCtxCancel, hm, cancelCore, hg]
  simp [he]

theorem cancelCore_rm_split {h : Heap} {id : Nat} {node : CancelNode} {fuel : Nat}
    (e : TErr) (hg : getN h id = some node) (he : node.err = none) :
    cancelCore (fuel + 1) h id true e =
      removeChild (cancelCore (fuel + 1) h id false e) node.parentRef id := by
  simp only [cancelCore, hg]
  simp [he]

/- ===================== From one-step closure to reachability ===================== -/

theorem closed_cancels_reachable (e : TErr) (h g : Heap) (hwf : wfHeap h = true)
    (hcl : OneStepClosedExcept e h g []) :
    ∀ {i j : Nat}, Reaches h i j → cancelledAt e h g i → liveAt h j →
      cancelledAt e h g j := by
  intro i j hr
  induction hr with
  | refl i => intro hci _; exact hci
  | @step i j1 k n hn hj hr2 ih =>
      intro hci hlj
      rcases hcl i hci with hS | hclosure
      · exact absurd hS (List.not_mem_nil _)
      · have hlj1 : liveAt h j1 := by
          cases hget : getN h j1 with
          | none =>
              cases hr2 with
              | refl _ =>
                  obtain ⟨nk, hnk, _⟩ := hlj
                  rw [hget] at hnk
                  exact Option.noConfusion hnk
              | step hn2 _ _ =>
                  rw [hget] at hn2
                  exact Option.noConfusion hn2
          | some n1 =>
              cases hne1 : n1.err with
              | none => exact ⟨n1, hget, hne1⟩
              | some x =>
                  have hchl := nodeWF_err (wfHeap_node hwf hget) (by rw [hne1]; rfl)
                  cases hr2 with
                  | refl _ =>
                      obtain ⟨nk, hnk, hnek⟩ := hlj
                      rw [hget] at hnk
                      injection hnk with hnk
                      rw [← hnk, hne1] at hnek
                      exact Option.noConfusion hnek
                  | step hn2 hj2 hr3 =>
                      rw [hget] at hn2
                      injection hn2 with hn2
                      rw [← hn2, hchl] at hj2
                      exact absurd hj2 (List.not_mem_nil _)
        exact ih (hclosure n j1 hn hj hlj1) hlj

/- ===================== Cancel reaches every live descendant ===================== -/

theorem cancel_cancels_descendants (h : Heap) (hwf : wfHeap h = true)
    (id : Nat) (rm : Bool) (e : TErr) :
    ∀ j : Nat, Reaches h id j → liveAt h j →
      errMap (cancelCtxCancel h id rm e) j = some (some e) ∧
      doneMap (cancelCtxCancel h id rm e) j = some true := by
  intro j hr hlj
  cases hg : getN h id with
  | none =>
      cases hr with
      | refl _ =>
          obtain ⟨n, hn, _⟩ := hlj
          rw [hg] at hn
          exact Option.noConfusion hn
      | step hn _ _ =>
          rw [hg] at hn
          exact Option.noConfusion hn
  | some node =>
      cases hne : node.err with
      | some e0 =>
          have hch := nodeWF_err (wfHeap_node hwf hg) (by rw [hne]; rfl)
          cases hr with
          | refl _ =>
              obtain ⟨n, hn, hnerr⟩ := hlj
              rw [hg] at hn
              injection hn with hn
              rw [← hn, hne] at hnerr
              exact Option.noConfusion hnerr
          | step hn hj _ =>
              rw [hg] at hn
              injection hn with hn
              rw [← hn, hch] at hj
              exact absurd hj (List.not_mem_nil _)
      | none =>
          have hm : h.length = (h.length - 1) + 1 := by
            have := lt_length_of_getN hg; omega
          have hrel0 : CancelRel e h h := ⟨rfl, fun i => Or.inl rfl⟩
          have hcl0 : OneStepClosedExcept e h h [] := by
            intro i hi
            obtain ⟨n, hn, hne2, hg2⟩ := hi
            rw [hn] at hg2
            injection hg2 with hg2
            rw [hg2] at hne2
            exact Option.noConfusion hne2
          obtain ⟨hrelF, hclF, hliveF⟩ :=
            cancelCore_spec e h hwf h.length h id [] hrel0 hcl0 (Nat.le_add_right _ _)
          have hcanc : cancelledAt e h (cancelCore h.length h id false e) id :=
            hliveF ⟨node, hg, hne⟩
          have hcj : cancelledAt e h (cancelCore h.length h id false e) j :=
            closed_cancels_reachable e h _ hwf hclF hr hcanc hlj
          obtain ⟨n2, hn2, hne2, hg2⟩ := hcj
          cases rm with
          | false =>
              rw [cancelCtxCancel, errMap, hg2, doneMap, hg2]
              exact ⟨rfl, rfl⟩
          | true =>
              have hsplit : cancelCtxCancel h id true e =
                  removeChild (cancelCore h.length h id false e) node.parentRef id := by
                rw [cancelCtxCancel]
                conv_lhs => rw [hm]
                conv_rhs => rw [hm]
                exact cancelCore_rm_split e hg hne
              rw [hsplit, errMap_removeChild, doneMap_removeChild,
                errMap, hg2, doneMap, hg2]
              exact ⟨rfl, rfl⟩

/- ===================== Untouched nodes ===================== -/

theorem cancelCore_rel (e : TErr) :
    ∀ (fuel : Nat) (h g : Heap) (c : Nat), CancelRel e h g →
      CancelRel e h (cancelCore fuel g c false e) := by
  intro fuel
  induction fuel with
  | zero => intro h g c hrel; exact hrel
  | succ fuel ih =>
      intro h g c hrel
      rw [cancelCore]
      split
      · exact hrel
      · rename_i node hgc
        split
        · exact hrel
        · rename_i hes
          have hnerr : node.err = none := by
            cases hne2 : node.err
            · rfl
            · rw [hne2] at hes; exact absurd rfl hes
          have hsame : getN h c = some node := by
            rcases hrel.2 c with hsame | hcan
            · rw [← hsame]; exact hgc
            · obtain ⟨n2, hn2, hne2, hg2⟩ := hcan
              rw [hgc] at hg2
              injection hg2 with hg2
              rw [hg2] at hes
              exact absurd rfl hes
          have hcanc1 : cancelledAt e h (setN g c (cancelledNode e node)) c :=
            ⟨node, hsame, hnerr, getN_setN_self _ (lt_length_of_getN hgc)⟩
          have hrel1 : CancelRel e h (setN g c (cancelledNode e node)) := by
            refine ⟨by rw [length_setN]; exact hrel.1, ?_⟩
            intro i
            by_cases hic : c = i
            · subst hic; exact Or.inr hcanc1
            · rcases hrel.2 i with hs2 | hc2
              · exact Or.inl (by rw [getN_setN_ne _ hic]; exact hs2)
              · obtain ⟨n2, hn2, hne2, hg2⟩ := hc2
                exact Or.inr ⟨n2, hn2, hne2, by rw [getN_setN_ne _ hic]; exact hg2⟩
          have hfold : ∀ (cs : List Nat) (g1 : Heap), CancelRel e h g1 →
              CancelRel e h
                (cs.foldl (fun acc c2 => cancelCore fuel acc c2 false e) g1) := by
            intro cs
            induction cs with
            | nil => intro g1 hr1; exact hr1
            | cons c2 rest ih2 =>
                intro g1 hr1
                rw [List.foldl_cons]
                exact ih2 _ (ih h g1 c2 hr1)
          exact hfold _ _ hrel1

theorem reaches_mono {e : TErr} {g g' : Heap} (hrel : CancelRel e g g') :
    ∀ {x y : Nat}, Reaches g' x y → Reaches g x y := by
  intro x y hr
  induction hr with
  | refl x => exact .refl x
  | @step x j k n hn hj hr2 ih =>
      rcases hrel.2 x with hs | hc
      · exact .step (by rw [← hs]; exact hn) hj ih
      · obtain ⟨n2, hn2, hne2, hg2⟩ := hc
        rw [hn] at hg2
        injection hg2 with hg2
        rw [hg2] at hj
        exact absurd hj (List.not_mem_nil _)

theorem cancelCore_unreached (e : TErr) :
    ∀ (fuel : Nat) (g : Heap) (c j : Nat), ¬ Reaches g c j →
      getN (cancelCore fuel g c false e) j = getN g j := by
  intro fuel
  induction fuel with
  | zero => intro g c j _; rfl
  | succ fuel ih =>
      intro g c j hnr
      rw [cancelCore]
      split
      · rfl
      · rename_i node hgc
        split
        · rfl
        · rename_i hes
          have hcj : c ≠ j := fun hx => hnr (hx ▸ .refl c)
          have hset : getN (setN g c (cancelledNode e node)) j = getN g j :=
            getN_setN_ne _ hcj
          have hrel1 : CancelRel e g (setN g c (cancelledNode e node)) := by
            refine ⟨length_setN _ _ _, ?_⟩
            intro i
            by_cases hic : c = i
            · subst hic
              refine Or.inr ⟨node, hgc, ?_, getN_setN_self _ (lt_length_of_getN hgc)⟩
              cases hne2 : node.err
              · rfl
              · rw [hne2] at hes; exact absurd rfl hes
            · exact Or.inl (getN_setN_ne _ hic)
          have hfold : ∀ (cs : List Nat), (∀ c2 ∈ cs, ¬ Reaches g c2 j) →
              ∀ (g1 : Heap), CancelRel e g g1 → getN g1 j = getN g j →
              getN (cs.foldl (fun acc c2 => cancelCore fuel acc c2 false e) g1) j =
                getN g j ∧
              CancelRel e g
                (cs.foldl (fun acc c2 => cancelCore fuel acc c2 false e) g1) := by
            intro cs
            induction cs with
            | nil => intro _ g1 hr1 hj1; exact ⟨hj1, hr1⟩
            | cons c2 rest ih2 =>
                intro hnr2 g1 hr1 hj1
                rw [List.foldl_cons]
                have hnr3 : ¬ Reaches g1 c2 j := fun hx =>
                  hnr2 c2 (List.mem_cons_self _ _) (reaches_mono hr1 hx)
                have hstep : getN (cancelCore fuel g1 c2 false e) j = getN g1 j :=
                  ih g1 c2 j hnr3
                exact ih2 (fun x hx => hnr2 x (List.mem_cons_of_mem _ hx)) _
                  (cancelCore_rel e fuel g g1 c2 hr1) (by rw [hstep]; exact hj1)
          refine (hfold node.children ?_ _ hrel1 hset).1
          intro c2 hc2 hx
          exact hnr (.step hgc hc2 hx)

theorem reaches_cases {h : Heap} :
    ∀ {a b : Nat}, Reaches h a b →
      a = b ∨ ∃ i n, getN h i = some n ∧ b ∈ n.children := by
  intro a b hr
  induction hr with
  | refl i => exact Or.inl rfl
  | @step i j k n hn hj hr2 ih =>
      rcases ih with heq | hex
      · exact Or.inr ⟨i, n, hn, heq ▸ hj⟩
      · exact Or.inr hex

theorem not_reaches_unregistered {h : Heap} {d a : Nat}
    (hd : ∀ i n, getN h i = some n → d ∉ n.children) (hne : a ≠ d) :
    ¬ Reaches h a d := by
  intro hr
  rcases reaches_cases hr with heq | ⟨i, n, hn, hmem⟩
  · exact hne heq
  · exact hd i n hn hmem

/- ===================== Cancel entry points ===================== -/

theorem getN_concat_self (h : Heap) (n : CancelNode) :
    getN (h ++ [n]) h.length = some n := List.getElem?_concat_length h n

theorem cancel_sets_err {h : Heap} {id : Nat} {node : CancelNode} (rm : Bool)
    (e : TErr) (hg : getN h id = some node) (he : node.err = none) :
    errMap (cancelCtxCancel h id rm e) id = some (some e) ∧
    doneMap (cancelCtxCancel h id rm e) id = some true := by
  have hm : h.length = (h.length - 1) + 1 := by
    have := lt_length_of_getN hg; omega
  have hset : getN (setN h id (cancelledNode e node)) id = some (cancelledNode e node) :=
    getN_setN_self _ (lt_length_of_getN hg)
  have hfold : getN (node.children.foldl
      (fun acc c2 => cancelCore (h.length - 1) acc c2 false e)
      (setN h id (cancelledNode e node))) id = some (cancelledNode e node) := by
    have hgen : ∀ (cs : List Nat) (g1 : Heap),
        getN g1 id = some (cancelledNode e node) →
        getN (cs.foldl (fun acc c2 => cancelCore (h.length - 1) acc c2 false e) g1) id =
          some (cancelledNode e node) := by
      intro cs
      induction cs with
      | nil => intro g1 hx; exact hx
      | cons c2 rest ih2 =>
          intro g1 hx
          rw [List.foldl_cons]
          exact ih2 _ (cancelCore_keeps_errSome e _ g1 c2 id _ hx rfl)
    exact hgen _ _ hset
  cases rm with
  | false =>
      rw [cancelCtxCancel_live false e hg he hm]
      simp only [Bool.false_eq_true, if_false]
      rw [errMap, hfold, doneMap, hfold]
      exact ⟨rfl, rfl⟩
  | true =>
      rw [cancelCtxCancel_live true e hg he hm]
      simp only [if_true]
      rw [errMap_removeChild, doneMap_removeChild, errMap, hfold, doneMap, hfold]
      exact ⟨rfl, rfl⟩

theorem cancel_untouched {h : Heap} {a d : Nat} (rm : Bool) (e : TErr)
    (hnr : ¬ Reaches h a d) :
    errMap (cancelCtxCancel h a rm e) d = errMap h d ∧
    doneMap (cancelCtxCancel h a rm e) d = doneMap h d := by
  cases hg : getN h a with
  | none => rw [cancelCtxCancel_none rm e hg]; exact ⟨rfl, rfl⟩
  | some node =>
      cases hne : node.err with
      | some e0 =>
          rw [cancelCtxCancel_errSome rm e hg (by rw [hne]; rfl)]
          exact ⟨rfl, rfl⟩
      | none =>
          have hm : h.length = (h.length - 1) + 1 := by
            have := lt_length_of_getN hg; omega
          have hkeep : getN (cancelCore h.length h a false e) d = getN h d :=
            cancelCore_unreached e h.length h a d hnr
          cases rm with
          | false =>
              rw [cancelCtxCancel, errMap, hkeep, doneMap, hkeep, errMap, doneMap]
              exact ⟨rfl, rfl⟩
          | true =>
              have hsplit : cancelCtxCancel h a true e =
                  removeChild (cancelCore h.length h a false e) node.parentRef a := by
                rw [cancelCtxCancel]
                conv_lhs => rw [hm]
                conv_rhs => rw [hm]
                exact cancelCore_rm_split e hg hne
              rw [hsplit, errMap_removeChild, doneMap_removeChild,
                errMap, hkeep, doneMap, hkeep, errMap, doneMap]
              exact ⟨rfl, rfl⟩

theorem cancel_keeps_cancelled {h : Heap} {id j : Nat} {n : CancelNode} (rm : Bool)
    (e : TErr) (hgj : getN h j = some n) (hes : n.err.isSome = true) :
    errMap (cancelCtxCancel h id rm e) j = some n.err ∧
    doneMap (cancelCtxCancel h id rm e) j = some n.doneClosed := by
  cases hg : getN h id with
  | none =>
      rw [cancelCtxCancel_none rm e hg, errMap, hgj, doneMap, hgj]
      exact ⟨rfl, rfl⟩
  | some node =>
      cases hne : node.err with
      | some e0 =>
          rw [cancelCtxCancel_errSome rm e hg (by rw [hne]; rfl), errMap, hgj,
            doneMap, hgj]
          exact ⟨rfl, rfl⟩
      | none =>
          have hm : h.length = (h.length - 1) + 1 := by
            have := lt_length_of_getN hg; omega
          have hkeep : getN (cancelCore h.length h id false e) j = some n :=
            cancelCore_keeps_errSome e h.length h id j n hgj hes
          cases rm with
          | false =>
              rw [cancelCtxCancel, errMap, hkeep, doneMap, hkeep]
              exact ⟨rfl, rfl⟩
          | true =>
              have hsplit : cancelCtxCancel h id true e =
                  removeChild (cancelCore h.length h id false e) node.parentRef id := by
                rw [cancelCtxCancel]
                conv_lhs => rw [hm]
                conv_rhs => rw [hm]
                exact cancelCore_rm_split e hg hne
              rw [hsplit, errMap_removeChild, doneMap_removeChild,
                errMap, hkeep, doneMap, hkeep]
              exact ⟨rfl, rfl⟩

theorem cancel_idempotent :
    ∀ (h : Heap) (id : Nat) (rm rm2 : Bool) (e e2 : TErr),
      cancelCtxCancel (cancelCtxCancel h id rm e) id rm2 e2 =
        cancelCtxCancel h id rm e := by
  intro h id rm rm2 e e2
  cases hg : getN h id with
  | none => rw [cancelCtxCancel_none rm e hg, cancelCtxCancel_none rm2 e2 hg]
  | some node =>
      cases hne : node.err with
      | some e0 =>
          rw [cancelCtxCancel_errSome rm e hg (by rw [hne]; rfl),
            cancelCtxCancel_errSome rm2 e2 hg (by rw [hne]; rfl)]
      | none =>
          have h1 := (cancel_sets_err rm e hg hne).1
          obtain ⟨n2, hn2, hne2⟩ : ∃ n2, getN (cancelCtxCancel h id rm e) id = some n2 ∧
              n2.err = some e := by
            rw [errMap] at h1
            cases hx : getN (cancelCtxCancel h id rm e) id with
            | none => rw [hx] at h1; exact Option.noConfusion h1
            | some n2 =>
                rw [hx] at h1
                injection h1 with h1
                exact ⟨n2, rfl, h1⟩
          exact cancelCtxCancel_errSome rm2 e2 hn2 (by rw [hne2]; rfl)

/- ===================== propagateCancel support ===================== -/

theorem parentCancelCtx_lt {h : Heap} {r : CtxRef} {p : Nat}
    (hwf : ctxRefWF h r = true) (hp : parentCancelCtx r = some p) : p < h.length := by
  induction r with
  | background => exact Option.noConfusion hp
  | foreignCtx b => exact Option.noConfusion hp
  | valueOf parent k v ih => exact ih hwf hp
  | cancelOf id =>
      rw [parentCancelCtx] at hp
      injection hp with hp
      subst hp
      simpa [ctxRefWF] using hwf

theorem sdkBuilt_parentCancelCtx {r : CtxRef} (hs : sdkBuilt r = true)
    (hd : ctxDoneNil r = false) : (parentCancelCtx r).isSome = true := by
  induction r with
  | background => exact Bool.noConfusion hd
  | foreignCtx b => exact Bool.noConfusion hs
  | valueOf parent k v ih => exact ih hs hd
  | cancelOf id => rfl

/- ===================== Claim theorems: contexts ===================== -/

/-- Claim C5: on a well-formed heap, cancelling a context cancels every live
descendant reachable through registered children (setting its error and
closing its done channel); a context registered in no children set — as
NewDisconnectedContext creates them — is untouched by any other context's
cancel but is cancelled by its own cancel function; and an already-cancelled
context is left entirely unchanged (cancelled exactly once, first error
kept, done channel not closed again). -/
theorem c5_cancel_descendants :
    (∀ (h : Heap) (e : TErr) (id j : Nat) (rm : Bool), wfHeap h = true →
      Reaches h id j → errMap h j = some none →
      errMap (cancelCtxCancel h id rm e) j = some (some e) ∧
      doneMap (cancelCtxCancel h id rm e) j = some true) ∧
    (∀ (h : Heap) (e : TErr) (a d : Nat) (rm : Bool),
      h.all (fun n => !n.children.contains d) = true → a ≠ d →
      errMap (cancelCtxCancel h a rm e) d = errMap h d ∧
      doneMap (cancelCtxCancel h a rm e) d = doneMap h d) ∧
    (∀ (h : Heap) (parent : CtxRef) (rm : Bool),
      errMap (cancelCtxCancel (NewDisconnectedContext h parent).1
          (NewDisconnectedContext h parent).2 rm ErrCanceled)
        (NewDisconnectedContext h parent).2 = some (some ErrCanceled) ∧
      doneMap (cancelCtxCancel (NewDisconnectedContext h parent).1
          (NewDisconnectedContext h parent).2 rm ErrCanceled)
        (NewDisconnectedContext h parent).2 = some true) ∧
    (∀ (h : Heap) (e e0 : TErr) (id j : Nat) (rm : Bool) (n : CancelNode),
      getN h j = some n → n.err = some e0 →
      errMap (cancelCtxCancel h id rm e) j = some (some e0) ∧
      doneMap (cancelCtxCancel h id rm e) j = some n.doneClosed) := by
  refine ⟨?_, ?_, ?_, ?_⟩
  · intro h e id j rm hwf hr herr
    obtain ⟨n, hn, hne⟩ : ∃ n, getN h j = some n ∧ n.err = none := by
      rw [errMap] at herr
      cases hx : getN h j with
      | none => rw [hx] at herr; exact Option.noConfusion herr
      | some n =>
          rw [hx] at herr
          injection herr with herr
          exact ⟨n, rfl, herr⟩
    exact cancel_cancels_descendants h hwf id rm e j hr ⟨n, hn, hne⟩
  · intro h e a d rm hall hne
    have hd2 : ∀ i n, getN h i = some n → d ∉ n.children := by
      intro i n hg
      have hmem := List.getElem?_mem hg
      have hx := List.all_eq_true.mp hall n hmem
      simpa using hx
    exact cancel_untouched rm e (not_reaches_unregistered hd2 hne)
  · intro h parent rm
    have hg : getN (NewDisconnectedContext h parent).1
        (NewDisconnectedContext h parent).2 = some ⟨parent, none, false, []⟩ :=
      getN_concat_self h _
    exact cancel_sets_err rm ErrCanceled hg rfl
  · intro h e e0 id j rm n hgj hne
    have hk := @cancel_keeps_cancelled h id j n rm e hgj (by rw [hne]; rfl)
    rw [hne] at hk
    exact hk

/-- The three-node heap of the C5 witness: a root cancelCtx registering one
child, which registers a grandchild behind a valueCtx wrapper. -/
def c5HeapA : Heap :=
  [⟨.background, none, false, [1]⟩, ⟨.cancelOf 0, none, false, [2]⟩,
   ⟨.valueOf (.cancelOf 1) 0 0, none, false, []⟩]

/-- The C5 witness heap with a disconnected third node (in nobody's
children set). -/
def c5HeapB : Heap :=
  [⟨.background, none, false, [1]⟩, ⟨.cancelOf 0, none, false, []⟩,
   ⟨.cancelOf 0, none, false, []⟩]

/-- The C5 witness heap holding one already-cancelled context. -/
def c5HeapC : Heap := [⟨.background, some (.terminated .nilF), true, []⟩]

theorem c5_cancel_descendants_witness :
    (errMap (cancelCtxCancel c5HeapA 0 true ErrCanceled) 2 = some (some ErrCanceled) ∧
      doneMap (cancelCtxCancel c5HeapA 0 true ErrCanceled) 2 = some true) ∧
    (errMap (cancelCtxCancel c5HeapB 0 true ErrCanceled) 2 = errMap c5HeapB 2 ∧
      doneMap (cancelCtxCancel c5HeapB 0 true ErrCanceled) 2 = doneMap c5HeapB 2) ∧
    errMap (cancelCtxCancel (NewDisconnectedContext [⟨.background, none, false, []⟩]
        (.cancelOf 0)).1
      (NewDisconnectedContext [⟨.background, none, false, []⟩] (.cancelOf 0)).2
      true ErrCanceled)
      (NewDisconnectedContext [⟨.background, none, false, []⟩] (.cancelOf 0)).2 =
      some (some ErrCanceled) ∧
    errMap (cancelCtxCancel c5HeapC 0 true ErrCanceled) 0 =
      some (some (.terminated .nilF)) := by
  have hreach : Reaches c5HeapA 0 2 :=
    @Reaches.step c5HeapA 0 1 2 ⟨.background, none, false, [1]⟩ rfl (by decide)
      (@Reaches.step c5HeapA 1 2 2 ⟨.cancelOf 0, none, false, [2]⟩ rfl (by decide)
        (.refl 2))
  refine ⟨c5_cancel_descendants.1 c5HeapA ErrCanceled 0 2 true (by decide) hreach rfl,
    c5_cancel_descendants.2.1 c5HeapB ErrCanceled 0 2 true (by decide) (by decide),
    (c5_cancel_descendants.2.2.1 [⟨.background, none, false, []⟩] (.cancelOf 0) true).1,
    (c5_cancel_descendants.2.2.2 c5HeapC ErrCanceled (.terminated .nilF) 0 0 true
      ⟨.background, some (.terminated .nilF), true, []⟩ rfl rfl).1⟩

/-- Claim C6: after WithCancel, calling the returned cancel function (cancel
with removeFromParent and ErrCanceled) on a still-live context sets Err() to
ErrCanceled and closes the done channel; the first cancel wins — a context
whose err is already set is returned completely unchanged, so its error is
what Err() keeps returning — and repeating a cancel is a no-op that changes
no state. -/
theorem c6_withCancel_cancel :
    (∀ (h : Heap) (parent : CtxRef) (h2 : Heap) (id : Nat),
      WithCancel h parent = some (h2, id) → errMap h2 id = some none →
      errMap (cancelCtxCancel h2 id true ErrCanceled) id = some (some ErrCanceled) ∧
      doneMap (cancelCtxCancel h2 id true ErrCanceled) id = some true) ∧
    (∀ (h : Heap) (id : Nat) (rm : Bool) (e e0 : TErr),
      errMap h id = some (some e0) → cancelCtxCancel h id rm e = h) ∧
    (∀ (h : Heap) (id : Nat) (rm rm2 : Bool) (e e2 : TErr),
      cancelCtxCancel (cancelCtxCancel h id rm e) id rm2 e2 =
        cancelCtxCancel h id rm e) := by
  refine ⟨?_, ?_, cancel_idempotent⟩
  · intro h parent h2 id hw herr
    obtain ⟨node, hg, hne⟩ : ∃ node, getN h2 id = some node ∧ node.err = none := by
      rw [errMap] at herr
      cases hx : getN h2 id with
      | none => rw [hx] at herr; exact Option.noConfusion herr
      | some node =>
          rw [hx] at herr
          injection herr with herr
          exact ⟨node, rfl, herr⟩
    exact cancel_sets_err true ErrCanceled hg hne
  · intro h id rm e e0 herr
    obtain ⟨node, hg, hne⟩ : ∃ node, getN h id = some node ∧ node.err = some e0 := by
      rw [errMap] at herr
      cases hx : getN h id with
      | none => rw [hx] at herr; exact Option.noConfusion herr
      | some node =>
          rw [hx] at herr
          injection herr with herr
          exact ⟨node, rfl, herr⟩
    exact cancelCtxCancel_errSome rm e hg (by rw [hne]; rfl)

theorem c6_withCancel_cancel_witness :
    (errMap (cancelCtxCancel [⟨.background, none, false, []⟩] 0 true ErrCanceled) 0 =
      some (some ErrCanceled) ∧
      doneMap (cancelCtxCancel [⟨.background, none, false, []⟩] 0 true ErrCanceled) 0 =
      some true) ∧
    cancelCtxCancel (cancelCtxCancel [⟨.background, none, false, []⟩] 0 true
        ErrCanceled) 0 true (.terminated .nilF) =
      cancelCtxCancel [⟨.background, none, false, []⟩] 0 true ErrCanceled :=
  ⟨c6_withCancel_cancel.1 [] .background [⟨.background, none, false, []⟩] 0
      (by decide) rfl,
   c6_withCancel_cancel.2.2 [⟨.background, none, false, []⟩] 0 true true
      ErrCanceled (.terminated .nilF)⟩

/-- Claim C9: on a heap whose parent reference points inside it,
propagateCancel panics ("cancelCtx not found", modelled as none) exactly
when the parent's Done() channel is non-nil but the parent chain, walked
through valueCtx wrappers, contains no cancelCtx — as for a foreign Context
implementation; for parents built only from Background, WithValue,
WithCancel and NewDisconnectedContext the panic branch is unreachable. -/
theorem c9_propagateCancel_panic :
    ∀ (h : Heap) (parent : CtxRef) (child : Nat), ctxRefWF h parent = true →
      ((propagateCancel h parent child = none) ↔
        (ctxDoneNil parent = false ∧ parentCancelCtx parent = none)) ∧
      (sdkBuilt parent = true → (propagateCancel h parent child).isSome = true) := by
  intro h parent child hwf
  constructor
  · constructor
    · intro hn
      rw [propagateCancel] at hn
      by_cases hd : ctxDoneNil parent = true
      · rw [if_pos hd] at hn; exact Option.noConfusion hn
      · have hd2 : ctxDoneNil parent = false := by
          cases hx : ctxDoneNil parent
          · rfl
          · exact absurd hx hd
        rw [if_neg hd] at hn
        refine ⟨hd2, ?_⟩
        cases hp : parentCancelCtx parent with
        | none => rfl
        | some p =>
            simp only [hp] at hn
            have hlt := parentCancelCtx_lt hwf hp
            obtain ⟨pn, hpn⟩ : ∃ pn, getN h p = some pn := by
              rw [getN]
              exact ⟨_, List.getElem?_eq_getElem hlt⟩
            simp only [hpn] at hn
            cases hpe : pn.err with
            | some pe =>
                simp only [hpe] at hn
                exact Option.noConfusion hn
            | none =>
                simp only [hpe] at hn
                exact Option.noConfusion hn
    · rintro ⟨hd, hp⟩
      rw [propagateCancel, if_neg (by simp [hd])]
      simp only [hp]
  · intro hs
    rw [propagateCancel]
    by_cases hd : ctxDoneNil parent = true
    · rw [if_pos hd]; rfl
    · have hd2 : ctxDoneNil parent = false := by
        cases hx : ctxDoneNil parent
        · rfl
        · exact absurd hx hd
      rw [if_neg hd]
      have hps := sdkBuilt_parentCancelCtx hs hd2
      cases hp : parentCancelCtx parent with
      | none => rw [hp] at hps; exact Bool.noConfusion hps
      | some p =>
          simp only [hp]
          have hlt := parentCancelCtx_lt hwf hp
          obtain ⟨pn, hpn⟩ : ∃ pn, getN h p = some pn := by
            rw [getN]
            exact ⟨_, List.getElem?_eq_getElem hlt⟩
          simp only [hpn]
          cases hpe : pn.err with
          | some pe => simp only [hpe, Option.isSome_some]
          | none => simp only [hpe, Option.isSome_some]

theorem c9_propagateCancel_panic_witness :
    propagateCancel [] (.foreignCtx true) 0 = none ∧
    (propagateCancel [⟨.background, none, false, []⟩]
      (.valueOf (.cancelOf 0) 7 7) 1).isSome = true :=
  ⟨((c9_propagateCancel_panic [] (.foreignCtx true) 0 (by decide)).1).mpr
      ⟨rfl, rfl⟩,
   (c9_propagateCancel_panic [⟨.background, none, false, []⟩]
      (.valueOf (.cancelOf 0) 7 7) 1 (by decide)).2 (by decide)⟩
